import Mathlib

/-!
Verification development for the vcf2prot edit-compilation pipeline.

The Rust sources are shallowly embedded: strings become `List Char`,
`usize`/`u8` become `Nat` (with checked subtraction where Rust would panic on
underflow), `i32` accumulators become `Int`, and fallible or panicking code
returns the three-valued outcome type `Res` below (`ok` / `err` / `panicked`),
mirroring Rust `Result::Ok`, `Result::Err` and `panic!` respectively.
-/

namespace Vcf2Prot

/-- Outcome of a Rust computation: `Ok`, `Err` (message dropped), or a panic. -/
inductive Res (α : Type) where
  | ok (val : α)
  | err
  | panicked
deriving DecidableEq, Repr

instance : Monad Res where
  pure := Res.ok
  bind x f :=
    match x with
    | Res.ok v => f v
    | Res.err => Res.err
    | Res.panicked => Res.panicked

/-- Checked `usize` subtraction: Rust panics on underflow. -/
def csub (a b : Nat) : Res Nat :=
  if b ≤ a then Res.ok (a - b) else Res.panicked

/-- `mutation_ds.rs`: `MutatedString` — `Sequence(s)`, `EndSequence(s)` (ends
with `*`), or `NotSeq` (the literal `*`). -/
inductive MutatedString where
  | Sequence (s : List Char)
  | EndSequence (s : List Char)
  | NotSeq
deriving DecidableEq, Repr

/-- `mutation_ds.rs`: the closed set of 22 supported mutation kinds. -/
inductive MutationType where
  | MisSense | InframeInsertion | InframeDeletion | FrameShift | StopGained | StopLost
  | SMisSense | SInframeInsertion | SInframeDeletion | SFrameShift | SMisSenseAndInframeAltering
  | SFrameShiftAndStopRetained | SStopGainedAndInframeAltering | FrameShiftAndStopRetained
  | InframeDeletionAndStopRetained | InframeInsertionAndStopRetained | StopGainedAndInframeAltering
  | StartLost | SStopGained | StopLostAndFrameShift | MissenseAndInframeAltering
  | StartLostAndSpliceRegion
deriving DecidableEq, Repr

/-- `mutation_ds.rs`: `MutationInfo` (positions already 0-based, as stored). -/
structure MutationInfo where
  ref_aa_position : Nat
  mut_aa_position : Nat
  ref_aa : MutatedString
  mut_aa : MutatedString
deriving DecidableEq, Repr

/-- `mutation_ds.rs`: `Mutation`. -/
structure Mutation where
  transcrit_name : List Char
  mut_type : MutationType
  mut_info : MutationInfo
deriving DecidableEq, Repr

/-- The source's hand-written `PartialEq for Mutation` compares ONLY
`mut_info.mut_aa_position`; this mirrors that equality. -/
def Mutation.rustEq (a b : Mutation) : Bool :=
  a.mut_info.mut_aa_position == b.mut_info.mut_aa_position

/-- `instruction.rs`: `Instruction`. -/
structure Instruction where
  code : Char
  s_state : Bool
  pos_ref : Nat
  pos_res : Nat
  len : Nat
  data : List Char
deriving DecidableEq, Repr

instance : Inhabited Instruction := ⟨⟨'E', false, 0, 0, 0, []⟩⟩

/-- `instruction.rs`: `generate_phi_instruction`. -/
def generate_phi_instruction : Instruction :=
  ⟨'E', false, 0, 0, 0, []⟩

/-- Payload extraction used by every interpreter: `Sequence` is taken whole,
`EndSequence` drops its trailing `*`; `NotSeq` is handled per call site. -/
def seqData : MutatedString → Option (List Char)
  | MutatedString.Sequence s => some s
  | MutatedString.EndSequence s => some s.dropLast
  | MutatedString.NotSeq => none

/-- `instruction.rs`: body of the loop in `validate_s_state`, with its early
`break` on the first disqualifying earlier mutation. -/
def validateLoop : List Mutation → Bool
  | [] => true
  | m :: rest =>
    if m.mut_type = MutationType.StopGained ∨ m.mut_type = MutationType.FrameShift ∨
        m.mut_type = MutationType.SStopGained then false
    else if (m.mut_type = MutationType.InframeInsertion ∨
        m.mut_type = MutationType.InframeDeletion) ∧ m.mut_info.mut_aa = MutatedString.NotSeq then
      false
    else validateLoop rest

/-- `instruction.rs`: `validate_s_state` — true when no earlier mutation (before
the first position-equal occurrence, per the source's `PartialEq`) was
stop_gained, frameshift, *stop_gained, or an inframe insertion/deletion whose
mutant side is `NotSeq`. -/
def validate_s_state (mutation : Mutation) (vec_mut : List Mutation) : Bool :=
  let index := vec_mut.findIdx (fun elem => elem.rustEq mutation)
  validateLoop (vec_mut.take index)

/-- `instruction.rs`: `interpret_missense` (panics when the mutant side is the
bare `*`). -/
def interpret_missense (mutation : Mutation) (_vec_mut : List Mutation) : Res Instruction :=
  match seqData mutation.mut_info.mut_aa with
  | some data =>
      Res.ok ⟨'M', false, mutation.mut_info.ref_aa_position, mutation.mut_info.mut_aa_position,
        1, data⟩
  | none => Res.panicked

/-- `instruction.rs`: `interpret_stop_gained`. -/
def interpret_stop_gained (mutation : Mutation) (_vec_mut : List Mutation) : Res Instruction :=
  Res.ok ⟨'G', false, mutation.mut_info.ref_aa_position, mutation.mut_info.mut_aa_position, 0, []⟩

/-- `instruction.rs`: `interpret_s_missense`. -/
def interpret_s_missense (mutation : Mutation) (vec_mut : List Mutation) : Res Instruction :=
  match validate_s_state mutation vec_mut with
  | true => do
      let n_inst ← interpret_missense mutation vec_mut
      Res.ok { n_inst with code := 'N', s_state := true }
  | false => Res.ok generate_phi_instruction

/-- `instruction.rs`: `interpret_inframe_insertion` (a `NotSeq` mutant side is
re-routed to `interpret_stop_gained`). -/
def interpret_inframe_insertion (mutation : Mutation) (vec_mut : List Mutation) : Res Instruction :=
  match seqData mutation.mut_info.mut_aa with
  | some data =>
      Res.ok ⟨'I', false, mutation.mut_info.ref_aa_position, mutation.mut_info.mut_aa_position,
        data.length, data⟩
  | none => interpret_stop_gained mutation vec_mut

/-- `instruction.rs`: `interpret_s_inframe_insertion`. -/
def interpret_s_inframe_insertion (mutation : Mutation) (vec_mut : List Mutation) :
    Res Instruction :=
  match validate_s_state mutation vec_mut with
  | true => do
      let n_inst ← interpret_inframe_insertion mutation vec_mut
      Res.ok { n_inst with code := 'J', s_state := true }
  | false => Res.ok generate_phi_instruction

/-- `instruction.rs`: `interpret_inframe_deletion`; `len` is the Rust
`usize` difference `ref-side length - mut-side length`, which panics on
underflow. A `NotSeq` on either side re-routes to `interpret_stop_gained`. -/
def interpret_inframe_deletion (mutation : Mutation) (vec_mut : List Mutation) : Res Instruction :=
  match seqData mutation.mut_info.ref_aa with
  | none => interpret_stop_gained mutation vec_mut
  | some refSide =>
    match seqData mutation.mut_info.mut_aa with
    | none => interpret_stop_gained mutation vec_mut
    | some data => do
        let len ← csub refSide.length data.length
        Res.ok ⟨'D', false, mutation.mut_info.ref_aa_position, mutation.mut_info.mut_aa_position,
          len, data⟩

/-- `instruction.rs`: `interpret_s_inframe_deletion`. -/
def interpret_s_inframe_deletion (mutation : Mutation) (vec_mut : List Mutation) :
    Res Instruction :=
  match validate_s_state mutation vec_mut with
  | true => do
      let n_inst ← interpret_inframe_deletion mutation vec_mut
      Res.ok { n_inst with code := 'C', s_state := true }
  | false => Res.ok generate_phi_instruction

/-- `instruction.rs`: `interpret_frameshift` (a `NotSeq` mutant side yields the
phi instruction). -/
def interpret_frameshift (mutation : Mutation) (_vec_mut : List Mutation) : Res Instruction :=
  match seqData mutation.mut_info.mut_aa with
  | some data =>
      Res.ok ⟨'F', false, mutation.mut_info.ref_aa_position, mutation.mut_info.mut_aa_position,
        data.length, data⟩
  | none => Res.ok generate_phi_instruction

/-- `instruction.rs`: `interpret_s_frameshift` — note the `NotSeq` mutant side
is re-routed to `interpret_stop_gained` WITHOUT the `R` rewrite. -/
def interpret_s_frameshift (mutation : Mutation) (vec_mut : List Mutation) : Res Instruction :=
  match validate_s_state mutation vec_mut with
  | true =>
    match mutation.mut_info.mut_aa with
    | MutatedString.NotSeq => interpret_stop_gained mutation vec_mut
    | _ => do
        let n_inst ← interpret_frameshift mutation vec_mut
        Res.ok { n_inst with code := 'R', s_state := true }
  | false => Res.ok generate_phi_instruction

/-- `instruction.rs`: `interpret_s_stop_gained`. -/
def interpret_s_stop_gained (mutation : Mutation) (vec_mut : List Mutation) : Res Instruction :=
  match validate_s_state mutation vec_mut with
  | true => do
      let n_inst ← interpret_stop_gained mutation vec_mut
      Res.ok { n_inst with code := 'X', s_state := true }
  | false => Res.ok generate_phi_instruction

/-- `instruction.rs`: `interpret_stop_lost` (panics when the mutant side is the
bare `*`). -/
def interpret_stop_lost (mutation : Mutation) (_vec_mut : List Mutation) : Res Instruction :=
  match seqData mutation.mut_info.mut_aa with
  | some data =>
      Res.ok ⟨'L', false, mutation.mut_info.ref_aa_position, mutation.mut_info.mut_aa_position,
        data.length, data⟩
  | none => Res.panicked

/-- `instruction.rs`: `interpret_start_lost`. -/
def interpret_start_lost (_mutation : Mutation) (_vec_mut : List Mutation) : Res Instruction :=
  Res.ok ⟨'0', false, 0, 0, 0, []⟩

/-- `instruction.rs`: `interpret_s_missense_and_inframe_altering` — the
`*frameshift` lowering with a `K` rewrite when non-phi. -/
def interpret_s_missense_and_inframe_altering (mutation : Mutation) (vec_mut : List Mutation) :
    Res Instruction := do
  let n_inst ← interpret_s_frameshift mutation vec_mut
  match n_inst.code with
  | 'E' => Res.ok n_inst
  | _ => Res.ok { n_inst with code := 'K' }

/-- `instruction.rs`: `interpret_s_frameshift_and_stop_retained`. -/
def interpret_s_frameshift_and_stop_retained (mutation : Mutation) (vec_mut : List Mutation) :
    Res Instruction :=
  match mutation.mut_info.mut_aa with
  | MutatedString.NotSeq =>
    match validate_s_state mutation vec_mut with
    | true =>
        Res.ok ⟨'Q', true, mutation.mut_info.ref_aa_position, mutation.mut_info.mut_aa_position,
          0, []⟩
    | false => Res.ok generate_phi_instruction
  | _ => do
      let n_inst ← interpret_s_frameshift mutation vec_mut
      match n_inst.code with
      | 'E' => Res.ok n_inst
      | _ => Res.ok { n_inst with code := 'Q' }

/-- `instruction.rs`: `interpret_s_stop_gained_and_inframe_altering`. -/
def interpret_s_stop_gained_and_inframe_altering (mutation : Mutation) (vec_mut : List Mutation) :
    Res Instruction := do
  let n_inst ← interpret_s_stop_gained mutation vec_mut
  match n_inst.code with
  | 'E' => Res.ok n_inst
  | _ => Res.ok { n_inst with code := 'A' }

/-- `instruction.rs`: `interpret_frameshift_and_stop_retained`. -/
def interpret_frameshift_and_stop_retained (mutation : Mutation) (vec_mut : List Mutation) :
    Res Instruction := do
  let n_inst ← interpret_frameshift mutation vec_mut
  match n_inst.code with
  | 'E' => Res.ok n_inst
  | _ => Res.ok { n_inst with code := 'B' }

/-- `instruction.rs`: `interpret_inframe_deletion_and_stop_retained`. -/
def interpret_inframe_deletion_and_stop_retained (mutation : Mutation) (vec_mut : List Mutation) :
    Res Instruction := do
  let n_inst ← interpret_stop_gained mutation vec_mut
  match n_inst.code with
  | 'E' => Res.ok n_inst
  | _ => Res.ok { n_inst with code := 'P' }

/-- `instruction.rs`: `interpret_inframe_insertion_and_stop_retained` — the
source builds the phi instruction first, and since its code is already `'E'`
the `Z` rewrite branch is dead code: the result is always phi. -/
def interpret_inframe_insertion_and_stop_retained (mutation : Mutation) : Res Instruction :=
  let n_inst := generate_phi_instruction
  match n_inst.code with
  | 'E' => Res.ok n_inst
  | _ =>
      Res.ok { n_inst with code := 'Z', pos_res := mutation.mut_info.mut_aa_position }

/-- `instruction.rs`: `interpret_stop_gained_and_inframe_altering`. -/
def interpret_stop_gained_and_inframe_altering (mutation : Mutation) (vec_mut : List Mutation) :
    Res Instruction := do
  let n_inst ← interpret_stop_gained mutation vec_mut
  match n_inst.code with
  | 'E' => Res.ok n_inst
  | _ => Res.ok { n_inst with code := 'T' }

/-- `instruction.rs`: `interpret_stop_lost_and_frameshift`. -/
def interpret_stop_lost_and_frameshift (mutation : Mutation) (vec_mut : List Mutation) :
    Res Instruction := do
  let n_inst ← interpret_stop_lost mutation vec_mut
  match n_inst.code with
  | 'E' => Res.ok n_inst
  | _ => Res.ok { n_inst with code := 'W' }

/-- `instruction.rs`: `interpret_missense_and_inframe_altering` — synthesizes
`Y` (via the frameshift lowering) for a `NotSeq` mutant side, and `2`/`3` for
equal/unequal-length substitutions; note the source swaps `pos_ref`/`pos_res`
in the `2`/`3` constructions. -/
def interpret_missense_and_inframe_altering (mutation : Mutation) (vec_mut : List Mutation) :
    Res Instruction :=
  match mutation.mut_info.mut_aa with
  | MutatedString.NotSeq => do
      let n_inst ← interpret_frameshift mutation vec_mut
      match n_inst.code with
      | 'E' => Res.ok n_inst
      | _ => Res.ok { n_inst with code := 'Y' }
  | _ =>
    match seqData mutation.mut_info.mut_aa with
    | none => Res.panicked
    | some data =>
      match seqData mutation.mut_info.ref_aa with
      | none => Res.panicked
      | some ref_seq =>
        if data.length ≠ ref_seq.length then
          Res.ok ⟨'3', false, mutation.mut_info.mut_aa_position, mutation.mut_info.ref_aa_position,
            ref_seq.length, data⟩
        else
          Res.ok ⟨'2', false, mutation.mut_info.mut_aa_position, mutation.mut_info.ref_aa_position,
            0, data⟩

/-- `instruction.rs`: `interpret_start_lost_and_splice_region`. -/
def interpret_start_lost_and_splice_region (mutation : Mutation) (vec_mut : List Mutation) :
    Res Instruction := do
  let n_inst ← interpret_start_lost mutation vec_mut
  Res.ok { n_inst with code := 'U' }

/-- `instruction.rs`: `Instruction::from_mutation` — dispatch over the 22
mutation kinds. -/
def Instruction.from_mutation (mutation : Mutation) (vec_mut : List Mutation) : Res Instruction :=
  match mutation.mut_type with
  | MutationType.MisSense => interpret_missense mutation vec_mut
  | MutationType.SMisSense => interpret_s_missense mutation vec_mut
  | MutationType.FrameShift => interpret_frameshift mutation vec_mut
  | MutationType.SFrameShift => interpret_s_frameshift mutation vec_mut
  | MutationType.InframeInsertion => interpret_inframe_insertion mutation vec_mut
  | MutationType.SInframeInsertion => interpret_s_inframe_insertion mutation vec_mut
  | MutationType.InframeDeletion => interpret_inframe_deletion mutation vec_mut
  | MutationType.SInframeDeletion => interpret_s_inframe_deletion mutation vec_mut
  | MutationType.StartLost => interpret_start_lost mutation vec_mut
  | MutationType.StopLost => interpret_stop_lost mutation vec_mut
  | MutationType.StopGained => interpret_stop_gained mutation vec_mut
  | MutationType.SStopGained => interpret_s_stop_gained mutation vec_mut
  | MutationType.SMisSenseAndInframeAltering =>
      interpret_s_missense_and_inframe_altering mutation vec_mut
  | MutationType.SFrameShiftAndStopRetained =>
      interpret_s_frameshift_and_stop_retained mutation vec_mut
  | MutationType.SStopGainedAndInframeAltering =>
      interpret_s_stop_gained_and_inframe_altering mutation vec_mut
  | MutationType.FrameShiftAndStopRetained =>
      interpret_frameshift_and_stop_retained mutation vec_mut
  | MutationType.InframeDeletionAndStopRetained =>
      interpret_inframe_deletion_and_stop_retained mutation vec_mut
  | MutationType.InframeInsertionAndStopRetained =>
      interpret_inframe_insertion_and_stop_retained mutation
  | MutationType.StopGainedAndInframeAltering =>
      interpret_stop_gained_and_inframe_altering mutation vec_mut
  | MutationType.StopLostAndFrameShift => interpret_stop_lost_and_frameshift mutation vec_mut
  | MutationType.MissenseAndInframeAltering =>
      interpret_missense_and_inframe_altering mutation vec_mut
  | MutationType.StartLostAndSpliceRegion =>
      interpret_start_lost_and_splice_region mutation vec_mut

/-- `task.rs`: `Task` — stream code (0 = reference, 1 = alternative, 2 = phi),
start offset in the stream, copy length, and start offset in the result. -/
structure Task where
  exe_code : Nat
  start_pos : Nat
  length : Nat
  start_pos_res : Nat
deriving DecidableEq, Repr

instance : Inhabited Task := ⟨⟨0, 0, 0, 0⟩⟩

/-- The phi task `Task::new(2, 0, 0, 0)`. -/
def phiTask : Task := ⟨2, 0, 0, 0⟩

/-- `transcript_instructions.rs`: `TranscriptInstruction`. -/
structure TranscriptInstruction where
  transcript_name : List Char
  ref_len : Nat
  instructions : List Instruction
deriving DecidableEq, Repr

/-- `transcript_instructions.rs`: `compute_alt_stream_size`. -/
def compute_alt_stream_size (ti : TranscriptInstruction) : Nat :=
  (ti.instructions.map (fun ins => ins.data.length)).sum

/-- "No prior `G`/`F`" predicate used by the `R`, `J`, `C`, `K`, `Q`, `A`
branches of the size prediction: the source looks up the FIRST structurally
equal instruction in the full list and scans the prefix before it. -/
def noPriorGF (all : List Instruction) (ins : Instruction) : Bool :=
  let index := all.findIdx (fun i => i == ins)
  !((all.take index).any (fun i => i.code == 'G' || i.code == 'F'))

/-- `transcript_instructions.rs`: the signed `i32` delta a single instruction
contributes inside `compute_expected_results_array_size` (the `U`/`0` break
and the unknown-opcode panic are handled by the enclosing loop). -/
def expectedDelta (all : List Instruction) (ref_len : Nat) (ins : Instruction) : Option Int :=
  match ins.code with
  | 'F' => some ((ins.data.length : Int) - ((ref_len : Int) - (ins.pos_ref : Int)))
  | 'R' =>
      if noPriorGF all ins then
        some ((ins.data.length : Int) - ((ref_len : Int) - (ins.pos_ref : Int)))
      else some 0
  | 'G' => some (-((ref_len : Int) - (ins.pos_ref : Int)))
  | 'X' => some (-((ref_len : Int) - (ins.pos_ref : Int)))
  | 'M' => some 0
  | 'N' => some 0
  | '2' => some 0
  | 'L' =>
      if ins.pos_ref + 1 = ref_len ∨ ins.pos_ref = ref_len then some (ins.data.length : Int)
      else some ((ins.data.length : Int) - ((ref_len : Int) - (ins.pos_ref : Int)))
  | 'I' => some ((ins.data.length : Int) - 1)
  | 'J' => if noPriorGF all ins then some ((ins.data.length : Int) - 1) else some 0
  | 'D' => some (-(ins.len : Int))
  | 'C' => if noPriorGF all ins then some (-(ins.len : Int)) else some 0
  | 'K' =>
      if noPriorGF all ins then
        some ((ins.data.length : Int) - ((ref_len : Int) - (ins.pos_ref : Int)))
      else some 0
  | 'Q' =>
      if noPriorGF all ins then
        some ((ins.data.length : Int) - ((ref_len : Int) - (ins.pos_ref : Int)))
      else some 0
  | 'A' =>
      if noPriorGF all ins then some (-((ref_len : Int) - (ins.pos_ref : Int))) else some 0
  | 'B' => some (-((ref_len : Int) - (ins.pos_ref : Int) - (ins.len : Int)))
  | 'P' => some (-(ins.len : Int))
  | 'Z' => some 0
  | 'T' => some (-((ref_len : Int) - (ins.pos_ref : Int)))
  | 'W' => some (ins.data.length : Int)
  | 'Y' => some ((ins.data.length : Int) - ((ref_len : Int) - (ins.pos_ref : Int)) + 1)
  | '3' => some ((ins.data.length : Int) - (ins.len : Int))
  | _ => none

/-- `transcript_instructions.rs`: the accumulation loop of
`compute_expected_results_array_size`, with the `U`/`0` early break and the
unknown-opcode panic. -/
def expectedLoop (all : List Instruction) (ref_len : Nat) : List Instruction → Res Int
  | [] => Res.ok 0
  | ins :: rest =>
    if ins.code = 'U' ∨ ins.code = '0' then Res.ok (-(ref_len : Int))
    else
      match expectedDelta all ref_len ins with
      | some d => do
          let s ← expectedLoop all ref_len rest
          Res.ok (d + s)
      | none => Res.panicked

/-- Rust `i32 as usize` cast (sign-extension reinterpreted mod `2^64`). -/
def intAsUsize (z : Int) : Nat :=
  (z % ((2 : Int) ^ 64)).toNat

/-- `transcript_instructions.rs`: `compute_expected_results_array_size` —
`(ref_len as i32 + expected_size) as usize`. -/
def compute_expected_results_array_size (ti : TranscriptInstruction) : Res Nat := do
  let e ← expectedLoop ti.instructions ti.ref_len ti.instructions
  Res.ok (intAsUsize ((ti.ref_len : Int) + e))

/-- The `vec_tasks.last().unwrap()` access: every call site has a non-empty
task vector (the base task is pushed first), so the default is never used. -/
def lastTaskD (tasks : List Task) : Task :=
  tasks.getLastD default

/-- `transcript_instructions.rs`: `get_task_from_missense` — note the source
appends the payload FIRST and then takes `alt_len - 1` as the task offset. -/
def get_task_from_missense (ins : Instruction) (alt_stream : List Char) (vec_tasks : List Task) :
    Task × List Char :=
  let last_task := lastTaskD vec_tasks
  let pos_result := last_task.start_pos_res + last_task.length
  let alt2 := alt_stream ++ ins.data
  let pos_altstream := if alt2.length = 0 then 0 else alt2.length - 1
  (⟨1, pos_altstream, 1, pos_result⟩, alt2)

/-- `transcript_instructions.rs`: `get_task_from_frameshift` — the offset is
`alt_len - 1` of the arena BEFORE the payload is appended (0 when empty). -/
def get_task_from_frameshift (ins : Instruction) (alt_stream : List Char) (vec_tasks : List Task) :
    Task × List Char :=
  let pos_altstream := if alt_stream.length = 0 then 0 else alt_stream.length - 1
  let last_task := lastTaskD vec_tasks
  let pos_result := last_task.start_pos_res + last_task.length
  let alt2 := alt_stream ++ ins.data
  (⟨1, pos_altstream, ins.len, pos_result⟩, alt2)

/-- `transcript_instructions.rs`: `get_task_from_stop_gained` (a phi task). -/
def get_task_from_stop_gained (_ins : Instruction) (alt_stream : List Char)
    (_vec_tasks : List Task) : Task × List Char :=
  (phiTask, alt_stream)

/-- `transcript_instructions.rs`: `get_task_from_s_stop_gained` (a phi task). -/
def get_task_from_s_stop_gained (_ins : Instruction) (alt_stream : List Char)
    (_vec_tasks : List Task) : Task × List Char :=
  (phiTask, alt_stream)

/-- `transcript_instructions.rs`: `get_task_from_stop_lost` — same `alt_len - 1`
offset convention as the frameshift generator, length is the payload length. -/
def get_task_from_stop_lost (ins : Instruction) (alt_stream : List Char) (vec_tasks : List Task) :
    Task × List Char :=
  let pos_altstream := if alt_stream.length = 0 then 0 else alt_stream.length - 1
  let last_task := lastTaskD vec_tasks
  let pos_result := last_task.start_pos_res + last_task.length
  let alt2 := alt_stream ++ ins.data
  (⟨1, pos_altstream, ins.data.length, pos_result⟩, alt2)

/-- `transcript_instructions.rs`: `get_task_from_inframe_insertion` — offset is
the arena length before the append. -/
def get_task_from_inframe_insertion (ins : Instruction) (alt_stream : List Char)
    (vec_tasks : List Task) : Task × List Char :=
  let pos_altstream := alt_stream.length
  let last_task := lastTaskD vec_tasks
  let pos_result := last_task.start_pos_res + last_task.length
  let alt2 := alt_stream ++ ins.data
  (⟨1, pos_altstream, ins.len, pos_result⟩, alt2)

/-- `transcript_instructions.rs`: `get_task_from_inframe_deletion`. -/
def get_task_from_inframe_deletion (ins : Instruction) (alt_stream : List Char)
    (vec_tasks : List Task) : Task × List Char :=
  let pos_altstream := alt_stream.length
  let last_task := lastTaskD vec_tasks
  let pos_result := last_task.start_pos_res + last_task.length
  let alt2 := alt_stream ++ ins.data
  (⟨1, pos_altstream, ins.data.length, pos_result⟩, alt2)

/-- `transcript_instructions.rs`: `get_task_from_instruction_2`. -/
def get_task_from_instruction_2 (ins : Instruction) (alt_stream : List Char)
    (vec_tasks : List Task) : Task × List Char :=
  let pos_altstream := alt_stream.length
  let last_task := lastTaskD vec_tasks
  let pos_result := last_task.start_pos_res + last_task.length
  let alt2 := alt_stream ++ ins.data
  (⟨1, pos_altstream, ins.len, pos_result⟩, alt2)

/-- `transcript_instructions.rs`: `get_task_from_instruction_3`. -/
def get_task_from_instruction_3 (ins : Instruction) (alt_stream : List Char)
    (vec_tasks : List Task) : Task × List Char :=
  let pos_altstream := alt_stream.length
  let last_task := lastTaskD vec_tasks
  let pos_result := last_task.start_pos_res + last_task.length
  let alt2 := alt_stream ++ ins.data
  (⟨1, pos_altstream, ins.data.length, pos_result⟩, alt2)

/-- `transcript_instructions.rs`: `build_base_instruction` — the reference
prefix copied before the first instruction. -/
def build_base_instruction (ins : Instruction) (ref_len : Nat) : Task :=
  match ins.code with
  | 'Z' => ⟨0, 0, ins.pos_ref + 1, 0⟩
  | 'Y' => ⟨0, 0, ins.pos_ref + 1, 0⟩
  | 'L' =>
    if ins.pos_ref + 1 = ref_len then ⟨0, 0, ins.pos_ref + 1, 0⟩
    else if ins.pos_ref = ref_len then ⟨0, 0, ins.pos_ref, 0⟩
    else ⟨0, 0, ins.pos_res, 0⟩
  | _ => ⟨0, 0, ins.pos_ref, 0⟩

/-- `transcript_instructions.rs`: `add_last_instruction` — the terminal
reference copy after the last instruction (checked `usize` arithmetic). -/
def add_last_instruction (ref_seq : Nat) (ins : Instruction) (pos_res_array : Nat) : Res Task :=
  match ins.code with
  | 'D' => do
      let l ← csub ref_seq (ins.pos_ref + ins.len + 1)
      Res.ok ⟨0, ins.pos_ref + ins.len + 1, l, pos_res_array⟩
  | 'C' => do
      let l ← csub ref_seq (ins.pos_ref + ins.len + 1)
      Res.ok ⟨0, ins.pos_ref + ins.len + 1, l, pos_res_array⟩
  | '2' => do
      let l ← csub ref_seq (ins.pos_ref + ins.len)
      Res.ok ⟨0, ins.pos_ref + ins.len, l, pos_res_array⟩
  | '3' => do
      let l ← csub ref_seq (ins.pos_ref + ins.len)
      Res.ok ⟨0, ins.pos_ref + ins.len, l, pos_res_array⟩
  | _ => do
      let l ← csub ref_seq (ins.pos_ref + 1)
      Res.ok ⟨0, ins.pos_ref + 1, l, pos_res_array⟩

/-- `transcript_instructions.rs`: `add_till_next_ins` — the reference bridge
between an instruction and the next one; the source indexes the instruction by
its FIRST structurally equal occurrence, and subtractions on `usize` panic on
underflow (the two `catch_unwind` blocks only re-panic). -/
def add_till_next_ins (ins : Instruction) (instructions : List Instruction) (last_task : Task)
    (ref_len : Nat) : Res Task :=
  let position := instructions.findIdx (fun j => j == ins)
  if position + 1 < instructions.length then
    let next_ins := instructions.getD (position + 1) default
    match ins.code with
    | 'D' =>
      if next_ins.pos_ref = ins.pos_ref then Res.ok phiTask
      else if ins.pos_ref + ins.len = next_ins.pos_ref then Res.ok phiTask
      else if next_ins.code = 'L' ∧ next_ins.pos_ref + 1 = ref_len ∧
          ins.pos_ref + ins.len + 1 = next_ins.pos_ref then
        Res.ok ⟨0, ins.pos_ref + ins.len + 1, 1, last_task.start_pos_res + last_task.length⟩
      else do
        let l ← csub next_ins.pos_ref (ins.pos_ref + ins.len + 1)
        Res.ok ⟨0, ins.pos_ref + ins.len + 1, l, last_task.start_pos_res + last_task.length⟩
    | 'C' =>
      if next_ins.pos_ref = ins.pos_ref then Res.ok phiTask
      else if ins.pos_ref + ins.len = next_ins.pos_ref then Res.ok phiTask
      else if next_ins.code = 'L' ∧ next_ins.pos_ref + 1 = ref_len ∧
          ins.pos_ref + ins.len + 1 = next_ins.pos_ref then
        Res.ok ⟨0, ins.pos_ref + ins.len + 1, 1, last_task.start_pos_res + last_task.length⟩
      else do
        let l ← csub next_ins.pos_ref (ins.pos_ref + ins.len + 1)
        Res.ok ⟨0, ins.pos_ref + ins.len + 1, l, last_task.start_pos_res + last_task.length⟩
    | '2' =>
      if next_ins.pos_ref = ins.pos_ref then Res.ok phiTask
      else if ins.pos_ref + ins.len = next_ins.pos_ref then Res.ok phiTask
      else do
        let l ← csub next_ins.pos_ref (ins.pos_ref + ins.len)
        Res.ok ⟨0, ins.pos_ref + ins.len, l, last_task.start_pos_res + last_task.length⟩
    | '3' =>
      if next_ins.pos_ref = ins.pos_ref then Res.ok phiTask
      else if ins.pos_ref + ins.len = next_ins.pos_ref then Res.ok phiTask
      else do
        let l ← csub next_ins.pos_ref (ins.pos_ref + ins.len)
        Res.ok ⟨0, ins.pos_ref + ins.len, l, last_task.start_pos_res + last_task.length⟩
    | _ =>
      if next_ins.pos_ref = ins.pos_ref then Res.ok phiTask
      else if next_ins.code = 'L' then
        if next_ins.pos_ref + 1 = ref_len then do
          let l ← csub next_ins.pos_ref ins.pos_ref
          Res.ok ⟨0, ins.pos_ref + 1, l, last_task.start_pos_res + last_task.length⟩
        else do
          let l ← csub next_ins.pos_ref (ins.pos_ref + 1)
          Res.ok ⟨0, ins.pos_ref + 1, l, last_task.start_pos_res + last_task.length⟩
      else do
        let l ← csub next_ins.pos_ref (ins.pos_ref + 1)
        Res.ok ⟨0, ins.pos_ref + 1, l, last_task.start_pos_res + last_task.length⟩
  else Res.panicked

/-- Opcodes after which no terminal reference copy is emitted (the source's
list literal at the `last == true` branch of `to_task`, duplicates kept). -/
def terminalNoCopy : List Char :=
  ['K', 'Y', 'Q', 'A', 'B', 'P', 'Z', 'T', 'W', 'Z', 'T', 'W', 'Z', 'G', 'F', 'R', 'L', 'X']

/-- Opcodes that must be the last instruction of a transcript (the source's
list literal at the `last == false` branch of `to_task`). -/
def mustBeLast : List Char :=
  ['K', 'Q', 'A', 'B', 'P', 'Z', 'T', 'W', 'Z', 'T', 'W', 'Z', 'G', 'F', 'R', 'L']

/-- `transcript_instructions.rs`: `to_task` — lowers one instruction to its
edit task plus its bridge/terminal task, threading the alternative arena. -/
def to_task (instruction : Instruction) (vec_instruction : List Instruction)
    (alt_stream : List Char) (vec_tasks : List Task) (ref_len : Nat) :
    Res (Task × Task × List Char) := do
  let (ins_task, alt2) ←
    match instruction.code with
    | 'M' => Res.ok (get_task_from_missense instruction alt_stream vec_tasks)
    | 'N' => Res.ok (get_task_from_missense instruction alt_stream vec_tasks)
    | 'F' => Res.ok (get_task_from_frameshift instruction alt_stream vec_tasks)
    | 'R' => Res.ok (get_task_from_frameshift instruction alt_stream vec_tasks)
    | 'G' => Res.ok (get_task_from_stop_gained instruction alt_stream vec_tasks)
    | 'X' => Res.ok (get_task_from_s_stop_gained instruction alt_stream vec_tasks)
    | 'L' => Res.ok (get_task_from_stop_lost instruction alt_stream vec_tasks)
    | 'I' => Res.ok (get_task_from_inframe_insertion instruction alt_stream vec_tasks)
    | 'J' => Res.ok (get_task_from_inframe_insertion instruction alt_stream vec_tasks)
    | 'D' => Res.ok (get_task_from_inframe_deletion instruction alt_stream vec_tasks)
    | 'C' => Res.ok (get_task_from_inframe_deletion instruction alt_stream vec_tasks)
    | 'K' => Res.ok (get_task_from_frameshift instruction alt_stream vec_tasks)
    | 'Q' => Res.ok (phiTask, alt_stream)
    | 'Z' => Res.ok (phiTask, alt_stream)
    | 'P' => Res.ok (phiTask, alt_stream)
    | 'A' => Res.ok (get_task_from_stop_gained instruction alt_stream vec_tasks)
    | 'B' => Res.ok (get_task_from_frameshift instruction alt_stream vec_tasks)
    | 'T' => Res.ok (get_task_from_stop_gained instruction alt_stream vec_tasks)
    | 'W' => Res.ok (get_task_from_stop_lost instruction alt_stream vec_tasks)
    | 'Y' => Res.ok (get_task_from_frameshift instruction alt_stream vec_tasks)
    | '2' => Res.ok (get_task_from_instruction_2 instruction alt_stream vec_tasks)
    | '3' => Res.ok (get_task_from_instruction_3 instruction alt_stream vec_tasks)
    | _ => Res.panicked
  if vec_instruction.getLastD default == instruction then
    if terminalNoCopy.any (fun c => c == instruction.code) then
      Res.ok (ins_task, phiTask, alt2)
    else do
      let last_ins ← add_last_instruction ref_len instruction
        (ins_task.start_pos_res + ins_task.length)
      Res.ok (ins_task, last_ins, alt2)
  else
    if mustBeLast.any (fun c => c == instruction.code) then Res.err
    else do
      let last_ins ← add_till_next_ins instruction vec_instruction ins_task ref_len
      Res.ok (ins_task, last_ins, alt2)

/-- `gir.rs`: `GIR` — tasks, the `{transcript -> (start, end)}` map (modelled
as an association list), and the three byte arenas. -/
structure GIR where
  g_rep : List Task
  annot : List (List Char × (Nat × Nat))
  alt_stream : List Char
  ref_stream : List Char
  res_array : List Char
deriving DecidableEq, Repr

/-- Reference-proteome lookup (`ref_seqs.get(name)`). -/
def lookupSeq (ref_seqs : List (List Char × List Char)) (name : List Char) :
    Option (List Char) :=
  (ref_seqs.find? (fun p => p.1 == name)).map (fun p => p.2)

/-- The task-emission loop of `get_g_rep`: for each instruction push the two
tasks returned by `to_task`, skipping any task whose stream code is 2. -/
def girLoop (all : List Instruction) (ref_len : Nat) :
    List Instruction → List Char → List Task → Res (List Char × List Task)
  | [], alt_stream, vec_tasks => Res.ok (alt_stream, vec_tasks)
  | ins :: rest, alt_stream, vec_tasks => do
    let (task1, task2, alt2) ← to_task ins all alt_stream vec_tasks ref_len
    let tasks1 := if task1.exe_code == 2 then vec_tasks else vec_tasks ++ [task1]
    let tasks2 := if task2.exe_code == 2 then tasks1 else tasks1 ++ [task2]
    girLoop all ref_len rest alt2 tasks2

/-- `transcript_instructions.rs`: `get_g_rep` — compiles one transcript's
instruction list to a GIR fragment. A transcript containing a start-lost
opcode (`'0'`/`'U'`), or with no instructions, yields the empty GIR with the
annotation entry `(0, 0)`. -/
def get_g_rep (ti : TranscriptInstruction) (ref_seqs : List (List Char × List Char)) :
    Res GIR :=
  if ti.instructions.any (fun i => i.code == '0' || i.code == 'U') ∨
      ti.instructions.length = 0 then
    Res.ok ⟨[], [(ti.transcript_name, (0, 0))], [], [], []⟩
  else
    match lookupSeq ref_seqs ti.transcript_name with
    | none => Res.panicked
    | some ref_stream => do
      let size ← compute_expected_results_array_size ti
      let res_array := List.replicate size '.'
      match ti.instructions with
      | [] => Res.panicked
      | ins0 :: _ => do
        let base := build_base_instruction ins0 ti.ref_len
        let (alt_array, vec_tasks) ←
          girLoop ti.instructions ref_stream.length ti.instructions [] [base]
        Res.ok ⟨vec_tasks, [(ti.transcript_name, (0, size))], alt_array, ref_stream, res_array⟩

/-- `engines.rs`: the engine selector. -/
inductive Engine where
  | ST
  | MT
  | GPU
deriving DecidableEq, Repr

/-- In-place slice assignment
`results[sr .. sr+l] <- src[s .. s+l]`, element by element. -/
def writeSlice (results src : List Char) (s l sr : Nat) : List Char :=
  match l with
  | 0 => results
  | Nat.succ l2 => writeSlice (results.set sr (src.getD s ' ')) src (s + 1) l2 (sr + 1)

/-- `task.rs`: `Task::execute` — a pure slice copy from the reference stream
(code 0) or the alternative stream (any other code); Rust panics when either
range is out of bounds. -/
def Task.execute (task : Task) (results_tape ref_tape alt_tape : List Char) : Res (List Char) :=
  let end_bound_res := task.start_pos_res + task.length
  let end_bound_stream := task.start_pos + task.length
  let src := if task.exe_code = 0 then ref_tape else alt_tape
  if end_bound_res ≤ results_tape.length ∧ end_bound_stream ≤ src.length then
    Res.ok (writeSlice results_tape src task.start_pos task.length task.start_pos_res)
  else Res.panicked

/-- The sequential CPU task loop of `GIR::execute`
(`g_rep.iter().for_each(|task| task.execute(..))`). -/
def execTasks (ref_tape alt_tape : List Char) : List Task → List Char → Res (List Char)
  | [], results => Res.ok results
  | t :: rest, results => do
    let r2 ← t.execute results ref_tape alt_tape
    execTasks ref_tape alt_tape rest r2

/-- Does task `t` write result position `j`? -/
def taskCovers (t : Task) (j : Nat) : Bool :=
  decide (t.start_pos_res ≤ j ∧ j < t.start_pos_res + t.length)

/-- Pointwise gather semantics: each result byte comes from the task covering
its position (if any), read from that task's stream. -/
def gatherTasks (ref_tape alt_tape : List Char) (tasks : List Task) (results : List Char) :
    List Char :=
  (List.range results.length).map (fun j =>
    match tasks.find? (fun t => taskCovers t j) with
    | some t =>
        (if t.exe_code = 0 then ref_tape else alt_tape).getD
          (t.start_pos + (j - t.start_pos_res)) ' '
    | none => results.getD j ' ')

/-- Modelled from the spec: the CUDA kernel (`cuda_lib/kernel.cu`) is not under
`src/`; per §4.5 the device backend runs one logical thread per task, each
performing the same slice copy, so each result byte is the byte gathered by
the task covering its position (tasks have disjoint result ranges by
invariant 2). -/
def gpuGather (g : GIR) : List Char :=
  gatherTasks g.ref_stream g.alt_stream g.g_rep g.res_array

/-- Invariant 2 of the spec: two tasks write disjoint result ranges. -/
def resDisjoint (a b : Task) : Prop :=
  a.start_pos_res + a.length ≤ b.start_pos_res ∨ b.start_pos_res + b.length ≤ a.start_pos_res

instance : DecidableRel resDisjoint := fun a b =>
  inferInstanceAs (Decidable (_ ∨ _))

/-- Invariant 1 of the spec: a task's ranges fit inside its stream arena and
the result buffer. -/
def taskInBounds (ref_tape alt_tape results : List Char) (t : Task) : Prop :=
  t.start_pos_res + t.length ≤ results.length ∧
    t.start_pos + t.length ≤ (if t.exe_code = 0 then ref_tape else alt_tape).length

instance (ref_tape alt_tape results : List Char) (t : Task) :
    Decidable (taskInBounds ref_tape alt_tape results t) :=
  inferInstanceAs (Decidable (_ ∧ _))

/-- `gir.rs`: `GIR::execute` — the ST and MT arms are one and the same match
arm in the source; the GPU arm is the spec-modelled kernel above (its
success path; any non-zero device code aborts the run). -/
def GIR.execute (g : GIR) (engine : Engine) :
    Res (List Char × List (List Char × (Nat × Nat))) :=
  match engine with
  | Engine.ST => do
      let r ← execTasks g.ref_stream g.alt_stream g.g_rep g.res_array
      Res.ok (r, g.annot)
  | Engine.MT => do
      let r ← execTasks g.ref_stream g.alt_stream g.g_rep g.res_array
      Res.ok (r, g.annot)
  | Engine.GPU => Res.ok (gpuGather g, g.annot)

/-- `haplotype_instruction.rs`: `update_task` — shift a task's stream offset by
the matching arena cursor and its result offset by the result cursor; any
stream code other than 0 or 1 hits the panic branch. -/
def update_task (task : Task) (ref_counter alt_counter res_counter : Nat) : Res Task :=
  match task.exe_code with
  | 0 => Res.ok ⟨0, task.start_pos + ref_counter, task.length, task.start_pos_res + res_counter⟩
  | 1 => Res.ok ⟨1, task.start_pos + alt_counter, task.length, task.start_pos_res + res_counter⟩
  | _ => Res.panicked

/-- Re-index every task of one fragment (the inner `for task in res.0` loop). -/
def updateTasks (ref_counter alt_counter res_counter : Nat) : List Task → Res (List Task)
  | [] => Res.ok []
  | t :: ts => do
    let t2 ← update_task t ref_counter alt_counter res_counter
    let rest ← updateTasks ref_counter alt_counter res_counter ts
    Res.ok (t2 :: rest)

/-- `haplotype_instruction.rs`: the loop-and-reindex body of
`HaplotypeInstruction::get_g_rep`: an `Err` fragment is skipped
(`continue`), an `Ok` fragment has its tasks re-indexed and its arenas and
annotations appended, and the three cursors advance by the fragment's arena
and result lengths. -/
def hapLoop :
    List (Res GIR) → List Task → List Char → List Char →
    List (List Char × (Nat × Nat)) → Nat → Nat → Nat →
    Res (List Task × List Char × List Char × List (List Char × (Nat × Nat)))
  | [], g_rep, alt_array, reference_array, annot, _, _, _ =>
      Res.ok (g_rep, alt_array, reference_array, annot)
  | frag :: rest, g_rep, alt_array, reference_array, annot, ref_counter, alt_counter,
      res_counter =>
    match frag with
    | Res.err =>
        hapLoop rest g_rep alt_array reference_array annot ref_counter alt_counter res_counter
    | Res.panicked => Res.panicked
    | Res.ok r => do
      let shifted ← updateTasks ref_counter alt_counter res_counter r.g_rep
      let annot2 := annot ++ r.annot.map (fun e => (e.1, (e.2.1 + res_counter, e.2.2 + res_counter)))
      hapLoop rest (g_rep ++ shifted) (alt_array ++ r.alt_stream)
        (reference_array ++ r.ref_stream) annot2 (ref_counter + r.ref_stream.length)
        (alt_counter + r.alt_stream.length) (res_counter + r.res_array.length)

/-- `haplotype_instruction.rs`: `HaplotypeInstruction::get_g_rep`, taking the
per-transcript compile results and the pre-allocated result buffer (whose size
computation does not affect the task stream codes). -/
def hap_get_g_rep (vec_g_rep : List (Res GIR)) (results_array : List Char) : Res GIR := do
  let (g_rep, alt_array, reference_array, annot) ← hapLoop vec_g_rep [] [] [] [] 0 0 0
  Res.ok ⟨g_rep, annot, alt_array, reference_array, results_array⟩

/-- `MaskDecoder.rs`: the shared shape of the two bit-pair decoding loops —
walk a 32-bit word two bits at a time until it is zero; the low bit of each
pair pushes the running index into the haplotype-1 list, the high bit into the
haplotype-2 list. -/
def maskIdx (bitmask : Nat) (base : Nat) : List Nat × List Nat :=
  if h : bitmask = 0 then ([], [])
  else
    let rest := maskIdx (bitmask / 4) (base + 1)
    ((if bitmask % 2 = 1 then base :: rest.1 else rest.1),
     (if bitmask / 2 % 2 = 1 then base :: rest.2 else rest.2))
termination_by bitmask
decreasing_by exact Nat.div_lt_self (Nat.pos_of_ne_zero h) (by norm_num)

/-- `MaskDecoder.rs`: `BitMask::parse_single_field` (indices start at 0). -/
def parse_single_field (bitmask : Nat) : List Nat × List Nat :=
  maskIdx bitmask 0

/-- The word loop of `parse_concat_values`: `index_fields` advances by 15 per
32-bit word. -/
def concatLoop : List Nat → Nat → List Nat × List Nat
  | [], _ => ([], [])
  | w :: rest, index_fields =>
    let cur := maskIdx w index_fields
    let tail := concatLoop rest (index_fields + 15)
    (cur.1 ++ tail.1, cur.2 ++ tail.2)

/-- `MaskDecoder.rs`: `BitMask::parse_concat_values`. -/
def parse_concat_values (bitmask_vec : List Nat) : List Nat × List Nat :=
  concatLoop bitmask_vec 0

/-- `MaskDecoder.rs`: `BitMask::get_indices` — one word goes through
`parse_single_field`, several words through `parse_concat_values`. -/
def get_indices : Option (List Nat) → Option (List Nat × List Nat)
  | none => none
  | some vec =>
    if vec.length = 1 then some (parse_single_field (vec.getD 0 0))
    else some (parse_concat_values vec)

/-- Rust `str::split(c)`: split a character list on a separator, keeping empty
pieces (`""` splits to `[""]`). -/
def splitOnChar (c : Char) : List Char → List (List Char)
  | [] => [[]]
  | x :: xs =>
    match splitOnChar c xs with
    | [] => [[]]
    | h :: t => if x = c then [] :: h :: t else (x :: h) :: t

/-- `Constants.rs`: `DEF_CONSEQ` is the empty string. -/
def DEF_CONSEQ : List Char := []

/-- Decimal value of a digit list (the digits of a Rust integer literal). -/
def decDigitsVal (s : List Char) : Nat :=
  s.foldl (fun acc c => acc * 10 + (c.toNat - '0'.toNat)) 0

/-- All-decimal-digit check with at least one digit. -/
def parseNatDigits (s : List Char) : Option Nat :=
  if s ≠ [] ∧ s.all (fun c => c.isDigit) then some (decDigitsVal s) else none

/-- Rust `str::parse::<i32>()`: optional sign, one or more decimal digits,
magnitude within the `i32` range. -/
def parseI32 (s : List Char) : Option Int :=
  match s with
  | '-' :: rest =>
      (parseNatDigits rest).bind (fun n =>
        if (n : Int) ≤ 2 ^ 31 then some (-(n : Int)) else none)
  | '+' :: rest =>
      (parseNatDigits rest).bind (fun n =>
        if (n : Int) ≤ 2 ^ 31 - 1 then some (n : Int) else none)
  | _ =>
      (parseNatDigits s).bind (fun n =>
        if (n : Int) ≤ 2 ^ 31 - 1 then some (n : Int) else none)

/-- `text_parser.rs`: `parse_fields` — an `i32`-parseable field gets `$`
appended, a negative value hits the "outdated csq" panic, anything else
yields `DEF_CONSEQ`. -/
def parse_fields (fields : List Char) : Res (List Char) :=
  match parseI32 fields with
  | some res => if res < 0 then Res.panicked else Res.ok (fields ++ ['$'])
  | none => Res.ok DEF_CONSEQ

/-- `text_parser.rs`: `remove_leading_zeros` — strip trailing `"0"` entries
from the comma list; an empty remainder yields `DEF_CONSEQ`, otherwise a `-`
anywhere in the original field hits the "outdated csq" panic. -/
def remove_leading_zeros (fields : List Char) : Res (List Char) :=
  let split_result := splitOnChar ',' fields
  let stripped := (split_result.reverse.dropWhile (fun e => e == (['0'] : List Char))).reverse
  if stripped = [] then Res.ok DEF_CONSEQ
  else if fields.contains '-' then Res.panicked
  else Res.ok (List.intercalate [','] stripped)

/-- `text_parser.rs`: `get_bit_mask` — extract the last colon-separated field
of a per-sample column and normalize it. -/
def get_bit_mask (input_string : List Char) : Res (List Char) :=
  if input_string.count ':' = 0 then Res.ok DEF_CONSEQ
  else
    let bitmask_field := (splitOnChar ':' input_string).getD (input_string.count ':') []
    if bitmask_field = ['.'] then Res.ok DEF_CONSEQ
    else if bitmask_field.count ',' = 0 then parse_fields bitmask_field
    else do
      let bf2 ← remove_leading_zeros bitmask_field
      if bf2 = DEF_CONSEQ then Res.ok bf2
      else if bf2.count ',' = 0 then parse_fields bf2
      else Res.ok bf2

/-- `text_parser.rs`: `split_csq_string` — 6 pipes (7 fields) with biotype
`protein_coding` yield the `(kind, transcript, aa_change)` triple; any other
pipe count is an error unless the first field is `start_lost`, in which case
the aa_change `1M>1*` is synthesized (indexing `res[2]` panics when fewer
than 3 fields exist). -/
def split_csq_string (input_string : List Char) : Res (List (List Char)) :=
  let num_match := input_string.count '|'
  let res := splitOnChar '|' input_string
  if num_match = 6 then
    if res.getD 3 [] ≠ ("protein_coding".toList) then Res.err
    else Res.ok [res.getD 0 [], res.getD 2 [], res.getD 5 []]
  else
    if res.getD 0 [] = ("start_lost".toList) then
      if 2 < res.length then
        Res.ok [res.getD 0 [], res.getD 2 [], ("1M>1*".toList)]
      else Res.panicked
    else Res.err

/-- C1 failing input: a single inframe_deletion `10SLK>10SK` (0-based `pos_ref`
9, deletion length `3 - 2 = 1`, payload `SK`) on a transcript of length 20. -/
def c1Ti : TranscriptInstruction :=
  ⟨['T', '1'], 20, [(⟨'D', false, 9, 9, 1, ['S', 'K']⟩ : Instruction)]⟩

/-- Reference map for the C1 failing input. -/
def c1Refs : List (List Char × List Char) :=
  [(['T', '1'], List.replicate 20 'A')]

/-- The GIR fragment the compiler emits for the C1 failing input. -/
def c1Gir : GIR :=
  ⟨[⟨0, 0, 9, 0⟩, ⟨1, 0, 2, 9⟩, ⟨0, 11, 9, 11⟩], [(['T', '1'], (0, 19))], ['S', 'K'],
    List.replicate 20 'A', List.replicate 19 '.'⟩

/-- C6 failing input: a missense at 0-based position 5 (payload `H`) followed
by a frameshift at position 10 (payload `VT`) on a 38-residue transcript. -/
def c6Ti : TranscriptInstruction :=
  ⟨['T', '2'], 38,
    [(⟨'M', false, 5, 5, 1, ['H']⟩ : Instruction), (⟨'F', false, 10, 10, 2, ['V', 'T']⟩ : Instruction)]⟩

/-- Reference map for the C6 failing input. -/
def c6Refs : List (List Char × List Char) :=
  [(['T', '2'], List.replicate 38 'A')]

/-- The GIR fragment the compiler emits for the C6 failing input. -/
def c6Gir : GIR :=
  ⟨[⟨0, 0, 5, 0⟩, ⟨1, 0, 1, 5⟩, ⟨0, 6, 4, 6⟩, ⟨1, 0, 2, 10⟩], [(['T', '2'], (0, 12))],
    ['H', 'V', 'T'], List.replicate 38 'A', List.replicate 12 '.'⟩

/-- The spec's wording of the stop-lost contribution: `+len(payload)` when
`ref_pos+1 == L`, otherwise `len(payload) - (L - ref_pos)`. -/
def specStopLostDelta (payload_len ref_len pos_ref : Nat) : Int :=
  if pos_ref + 1 = ref_len then (payload_len : Int)
  else (payload_len : Int) - ((ref_len : Int) - (pos_ref : Int))

/-- The eight `*`-form (asterisk) mutation kinds. -/
def isStarredKind : MutationType → Bool
  | MutationType.SMisSense => true
  | MutationType.SInframeInsertion => true
  | MutationType.SInframeDeletion => true
  | MutationType.SFrameShift => true
  | MutationType.SStopGained => true
  | MutationType.SMisSenseAndInframeAltering => true
  | MutationType.SFrameShiftAndStopRetained => true
  | MutationType.SStopGainedAndInframeAltering => true
  | _ => false

/-- The disqualifying-earlier-mutation predicate of `validate_s_state`:
stop_gained, frameshift, *stop_gained, or an inframe insertion/deletion whose
mutant side is the bare `*`. -/
def isBadPrior (m : Mutation) : Bool :=
  (m.mut_type == MutationType.StopGained || m.mut_type == MutationType.FrameShift ||
    m.mut_type == MutationType.SStopGained) ||
  ((m.mut_type == MutationType.InframeInsertion || m.mut_type == MutationType.InframeDeletion) &&
    m.mut_info.mut_aa == MutatedString.NotSeq)

/-- Whether some mutation before `m`'s first position-equal occurrence in `l`
disqualifies the asterisk form. -/
def earlierBad (m : Mutation) (l : List Mutation) : Bool :=
  (l.take (l.findIdx (fun e => e.rustEq m))).any isBadPrior

/-- The opcode of a successful lowering, `none` on `Err`/panic. -/
def resCode : Res Instruction → Option Char
  | Res.ok i => some i.code
  | Res.err => none
  | Res.panicked => none

/-- The non-phi opcode each asterisk kind lowers to when not suppressed: its
starred opcode, except that a `*frameshift` whose mutant side is `NotSeq` is
re-routed to the plain stop_gained opcode `'G'`. -/
def expectedStarCode (m : Mutation) : Char :=
  match m.mut_type with
  | MutationType.SMisSense => 'N'
  | MutationType.SInframeInsertion => 'J'
  | MutationType.SInframeDeletion => 'C'
  | MutationType.SFrameShift =>
      if m.mut_info.mut_aa == MutatedString.NotSeq then 'G' else 'R'
  | MutationType.SStopGained => 'X'
  | MutationType.SMisSenseAndInframeAltering => 'K'
  | MutationType.SFrameShiftAndStopRetained => 'Q'
  | MutationType.SStopGainedAndInframeAltering => 'A'
  | _ => 'E'

/-- A fragment result is acceptable to the assembler when it is not a panic
and, if `Ok`, all its tasks carry stream code 0 or 1. -/
def fragOkCodes : Res GIR → Bool
  | Res.ok r => r.g_rep.all (fun t => t.exe_code == 0 || t.exe_code == 1)
  | Res.err => true
  | Res.panicked => false

/-- C1: the compilation succeeds, yet the emitted tasks sum to 20 result bytes
while `compute_expected_results_array_size` predicts 19 — the claimed density
invariant (sum of task lengths equals the pre-computed result-buffer length)
fails, and executing the fragment overruns the result buffer and panics. -/
theorem claim_C1_size_mismatch :
    get_g_rep c1Ti c1Refs = Res.ok c1Gir ∧
      compute_expected_results_array_size c1Ti = Res.ok 19 ∧
      (c1Gir.g_rep.map Task.length).sum = 20 ∧
      c1Gir.res_array.length = 19 ∧
      c1Gir.execute Engine.ST = Res.panicked := by
  decide

/-- C6: on the C6 failing input the frameshift's payload is appended at arena
offset 1 (arena `HVT`), but the emitted edit task reads the arena at
`start_in_stream = 0`, not at the arena length before the append, so the task
range `[0, 2)` covers `HV` rather than the payload `VT`; the executed output
shows the shifted bytes. -/
theorem claim_C6_arena_offset :
    get_g_rep c6Ti c6Refs = Res.ok c6Gir ∧
      c6Gir.g_rep.getD 3 default = ⟨1, 0, 2, 10⟩ ∧
      c6Gir.alt_stream = ['H', 'V', 'T'] ∧
      (c6Gir.g_rep.getD 3 default).start_pos ≠ 1 ∧
      c6Gir.execute Engine.ST =
        Res.ok (['A', 'A', 'A', 'A', 'A', 'H', 'A', 'A', 'A', 'A', 'H', 'V'], c6Gir.annot) := by
  decide

/-- C7: in the result-size prediction, a stop_lost instruction (`'L'`)
contributes `+len(payload)` when `ref_pos+1 = L` and `len(payload) - (L -
ref_pos)` otherwise; the source's extra `ref_pos = L` branch coincides with
the latter formula because `L - ref_pos = 0` there. -/
theorem claim_C7_stop_lost_delta (all rest : List Instruction) (ref_len : Nat) (s_state : Bool)
    (pos_ref pos_res ilen : Nat) (data : List Char) :
    expectedLoop all ref_len ((⟨'L', s_state, pos_ref, pos_res, ilen, data⟩ : Instruction) :: rest)
      = (expectedLoop all ref_len rest) >>=
          (fun s => Res.ok (specStopLostDelta data.length ref_len pos_ref + s)) := by
  have hdelta :
      expectedDelta all ref_len (⟨'L', s_state, pos_ref, pos_res, ilen, data⟩ : Instruction)
        = some (specStopLostDelta data.length ref_len pos_ref) := by
    show (if pos_ref + 1 = ref_len ∨ pos_ref = ref_len then some ((data.length : Int))
        else some ((data.length : Int) - ((ref_len : Int) - (pos_ref : Int))))
      = some (specStopLostDelta data.length ref_len pos_ref)
    by_cases h1 : pos_ref + 1 = ref_len
    · simp [h1, specStopLostDelta]
    · by_cases h2 : pos_ref = ref_len
      · subst h2
        simp [h1, specStopLostDelta]
      · simp [h1, h2, specStopLostDelta]
  show (if ('L' : Char) = 'U' ∨ ('L' : Char) = '0' then Res.ok (-(ref_len : Int))
      else
        match expectedDelta all ref_len (⟨'L', s_state, pos_ref, pos_res, ilen, data⟩ : Instruction) with
        | some d => do
            let s ← expectedLoop all ref_len rest
            Res.ok (d + s)
        | none => Res.panicked)
    = _
  rw [if_neg (by decide)]
  rw [hdelta]

/-- C3: a transcript-instruction list containing a start-lost opcode (`'0'` or
`'U'`) compiles to the empty GIR: no tasks, empty arenas, a result buffer of
length 0, and the annotation entry `(0, 0)` for the transcript. -/
theorem claim_C3_start_lost_collapse (ti : TranscriptInstruction)
    (ref_seqs : List (List Char × List Char))
    (h : ∃ i ∈ ti.instructions, i.code = '0' ∨ i.code = 'U') :
    get_g_rep ti ref_seqs = Res.ok ⟨[], [(ti.transcript_name, (0, 0))], [], [], []⟩ := by
  have hany : ti.instructions.any (fun i => i.code == '0' || i.code == 'U') = true := by
    rcases h with ⟨i, hi, hcode⟩
    refine List.any_eq_true.mpr ⟨i, hi, ?_⟩
    rcases hcode with h0 | hU
    · simp [h0]
    · simp [hU]
  unfold get_g_rep
  rw [if_pos (Or.inl hany)]

/-- C3 witness: a single start-lost instruction on a 38-residue transcript. -/
theorem claim_C3_witness :
    get_g_rep ⟨['T'], 38, [(⟨'0', false, 0, 0, 0, []⟩ : Instruction)]⟩ []
      = Res.ok ⟨[], [(['T'], (0, 0))], [], [], []⟩ :=
  claim_C3_start_lost_collapse _ _ ⟨⟨'0', false, 0, 0, 0, []⟩, by simp, Or.inl rfl⟩

/-- C8 (amended): the splitter accepts exactly the 7-field `protein_coding`
records (returning kind, transcript, aa_change) and, for ANY wrong pipe
count, the records whose first field is `start_lost` and which still have at
least three fields (returning the synthesized aa_change `1M>1*`). -/
theorem claim_C8_amended (s : List Char) (out : List (List Char)) :
    split_csq_string s = Res.ok out ↔
      ((s.count '|' = 6 ∧
          (splitOnChar '|' s).getD 3 [] = ("protein_coding".toList) ∧
          out = [(splitOnChar '|' s).getD 0 [], (splitOnChar '|' s).getD 2 [],
            (splitOnChar '|' s).getD 5 []]) ∨
        (s.count '|' ≠ 6 ∧
          (splitOnChar '|' s).getD 0 [] = ("start_lost".toList) ∧
          2 < (splitOnChar '|' s).length ∧
          out = [(splitOnChar '|' s).getD 0 [], (splitOnChar '|' s).getD 2 [],
            ("1M>1*".toList)])) := by
  unfold split_csq_string
  dsimp only
  split_ifs with h1 h2 h3 h4
  · constructor
    · intro h
      cases h
    · rintro (⟨_, hpc, _⟩ | ⟨hn, _, _, _⟩)
      · exact absurd hpc h2
      · exact absurd h1 hn
  · constructor
    · intro h
      exact Or.inl ⟨h1, not_not.mp h2, (Res.ok.inj h).symm⟩
    · rintro (⟨_, _, hout⟩ | ⟨hn, _, _, _⟩)
      · rw [hout]
      · exact absurd h1 hn
  · constructor
    · intro h
      exact Or.inr ⟨h1, h3, h4, (Res.ok.inj h).symm⟩
    · rintro (⟨h6, _, _⟩ | ⟨_, _, _, hout⟩)
      · exact absurd h6 h1
      · rw [hout]
  · constructor
    · intro h
      cases h
    · rintro (⟨h6, _, _⟩ | ⟨_, _, hlen, _⟩)
      · exact absurd h6 h1
      · exact absurd hlen h4
  · constructor
    · intro h
      cases h
    · rintro (⟨h6, _, _⟩ | ⟨_, hsl, _, _⟩)
      · exact absurd h6 h1
      · exact absurd hsl h3

/-- C8 counterexample: a `start_lost` record with 5 pipe-separated subfields
(not 4) and a wrong pipe count is still accepted, refuting "wrong pipe count
returns an error except the 4-subfield start_lost case". -/
theorem claim_C8_counterexample :
    split_csq_string ("start_lost|G|T|X|Y".toList)
        = Res.ok [("start_lost".toList), ['T'], ("1M>1*".toList)] ∧
      ("start_lost|G|T|X|Y".toList).count '|' ≠ 6 ∧
      (splitOnChar '|' ("start_lost|G|T|X|Y".toList)).length = 5 := by
  refine ⟨?_, by decide, by decide⟩
  decide

/-- Shifting two bits right moves the pair window: bit `i` of `bm / 4` is bit
`i + 2` of `bm`. -/
theorem testBit_quarter (bm i : Nat) : (bm / 4).testBit i = bm.testBit (i + 2) := by
  rw [show bm / 4 = bm / 2 / 2 by rw [Nat.div_div_eq_div_mul]]
  rw [Nat.testBit_succ, Nat.testBit_succ]

/-- Membership characterization of the pair-decoding loop: position `base + i`
is collected for haplotype 1 exactly when bit `2i` (the low bit of pair `i`)
is set, and for haplotype 2 exactly when bit `2i + 1` (the high bit) is. -/
theorem maskIdx_mem (bm : Nat) : ∀ base n,
    (n ∈ (maskIdx bm base).1 ↔ ∃ i, n = base + i ∧ bm.testBit (2 * i)) ∧
    (n ∈ (maskIdx bm base).2 ↔ ∃ i, n = base + i ∧ bm.testBit (2 * i + 1)) := by
  induction bm using Nat.strong_induction_on with
  | _ bm ih =>
    intro base n
    by_cases h : bm = 0
    · subst h
      rw [maskIdx]
      simp [Nat.zero_testBit]
    · rw [maskIdx, dif_neg h]
      dsimp only
      have hlt : bm / 4 < bm := Nat.div_lt_self (Nat.pos_of_ne_zero h) (by norm_num)
      have ihr := ih (bm / 4) hlt (base + 1) n
      have hq : ∀ i : Nat, (bm / 4).testBit (2 * i) = bm.testBit (2 * (i + 1)) := by
        intro i
        rw [show 2 * (i + 1) = 2 * i + 2 from by ring, testBit_quarter]
      have hq2 : ∀ i : Nat, (bm / 4).testBit (2 * i + 1) = bm.testBit (2 * (i + 1) + 1) := by
        intro i
        rw [show 2 * (i + 1) + 1 = 2 * i + 1 + 2 from by ring, testBit_quarter]
      have hbit0 : bm.testBit 0 = decide (bm % 2 = 1) := Nat.testBit_zero bm
      have hbit1 : bm.testBit 1 = decide (bm / 2 % 2 = 1) := by
        rw [show (1 : Nat) = Nat.succ 0 from rfl, Nat.testBit_succ, Nat.testBit_zero]
      constructor
      · constructor
        · intro hmem
          by_cases hc : bm % 2 = 1
          · rw [if_pos hc] at hmem
            rcases List.mem_cons.mp hmem with hn | hn
            · exact ⟨0, by simpa using hn, by rw [Nat.mul_zero, hbit0]; simpa using hc⟩
            · rcases ihr.1.mp hn with ⟨i, hni, hb⟩
              exact ⟨i + 1, by omega, by rw [← hq]; exact hb⟩
          · rw [if_neg hc] at hmem
            rcases ihr.1.mp hmem with ⟨i, hni, hb⟩
            exact ⟨i + 1, by omega, by rw [← hq]; exact hb⟩
        · rintro ⟨i, hni, hb⟩
          cases i with
          | zero =>
            have hc : bm % 2 = 1 := by
              rw [Nat.mul_zero, hbit0] at hb
              simpa using hb
            rw [if_pos hc]
            exact List.mem_cons.mpr (Or.inl (by omega))
          | succ i2 =>
            have hmem : n ∈ (maskIdx (bm / 4) (base + 1)).1 :=
              ihr.1.mpr ⟨i2, by omega, by rw [hq]; exact hb⟩
            by_cases hc : bm % 2 = 1
            · rw [if_pos hc]
              exact List.mem_cons.mpr (Or.inr hmem)
            · rw [if_neg hc]
              exact hmem
      · constructor
        · intro hmem
          by_cases hc : bm / 2 % 2 = 1
          · rw [if_pos hc] at hmem
            rcases List.mem_cons.mp hmem with hn | hn
            · refine ⟨0, by simpa using hn, ?_⟩
              rw [Nat.mul_zero, Nat.zero_add, hbit1]
              simpa using hc
            · rcases ihr.2.mp hn with ⟨i, hni, hb⟩
              exact ⟨i + 1, by omega, by rw [← hq2]; exact hb⟩
          · rw [if_neg hc] at hmem
            rcases ihr.2.mp hmem with ⟨i, hni, hb⟩
            exact ⟨i + 1, by omega, by rw [← hq2]; exact hb⟩
        · rintro ⟨i, hni, hb⟩
          cases i with
          | zero =>
            have hc : bm / 2 % 2 = 1 := by
              rw [Nat.mul_zero, Nat.zero_add, hbit1] at hb
              simpa using hb
            rw [if_pos hc]
            exact List.mem_cons.mpr (Or.inl (by omega))
          | succ i2 =>
            have hmem : n ∈ (maskIdx (bm / 4) (base + 1)).2 :=
              ihr.2.mpr ⟨i2, by omega, by rw [hq2]; exact hb⟩
            by_cases hc : bm / 2 % 2 = 1
            · rw [if_pos hc]
              exact List.mem_cons.mpr (Or.inr hmem)
            · rw [if_neg hc]
              exact hmem

/-- Membership characterization of the word loop: with a running base, word
`w` of the list contributes positions `base + 15*w + i` for its set pairs. -/
theorem concatLoop_mem (ws : List Nat) : ∀ base n,
    (n ∈ (concatLoop ws base).1 ↔
      ∃ w i, w < ws.length ∧ n = base + 15 * w + i ∧ (ws.getD w 0).testBit (2 * i)) ∧
    (n ∈ (concatLoop ws base).2 ↔
      ∃ w i, w < ws.length ∧ n = base + 15 * w + i ∧ (ws.getD w 0).testBit (2 * i + 1)) := by
  induction ws with
  | nil =>
    intro base n
    constructor <;> simp [concatLoop]
  | cons w0 rest ihr =>
    intro base n
    constructor
    · rw [show (concatLoop (w0 :: rest) base).1
          = (maskIdx w0 base).1 ++ (concatLoop rest (base + 15)).1 from rfl]
      rw [List.mem_append]
      constructor
      · rintro (hm | hm)
        · rcases (maskIdx_mem w0 base n).1.mp hm with ⟨i, hni, hb⟩
          exact ⟨0, i, by simp, by omega, by simpa using hb⟩
        · rcases ((ihr (base + 15) n).1.mp hm) with ⟨w2, i, hw, hni, hb⟩
          exact ⟨w2 + 1, i, by simpa using Nat.succ_lt_succ hw, by omega, by simpa using hb⟩
      · rintro ⟨w2, i, hw, hni, hb⟩
        cases w2 with
        | zero =>
          exact Or.inl ((maskIdx_mem w0 base n).1.mpr ⟨i, by omega, by simpa using hb⟩)
        | succ w3 =>
          have hw2 : w3 < rest.length := by
            simp only [List.length_cons] at hw
            omega
          refine Or.inr ((ihr (base + 15) n).1.mpr ⟨w3, i, hw2, by omega, ?_⟩)
          simpa using hb
    · rw [show (concatLoop (w0 :: rest) base).2
          = (maskIdx w0 base).2 ++ (concatLoop rest (base + 15)).2 from rfl]
      rw [List.mem_append]
      constructor
      · rintro (hm | hm)
        · rcases (maskIdx_mem w0 base n).2.mp hm with ⟨i, hni, hb⟩
          exact ⟨0, i, by simp, by omega, by simpa using hb⟩
        · rcases ((ihr (base + 15) n).2.mp hm) with ⟨w2, i, hw, hni, hb⟩
          exact ⟨w2 + 1, i, by simpa using Nat.succ_lt_succ hw, by omega, by simpa using hb⟩
      · rintro ⟨w2, i, hw, hni, hb⟩
        cases w2 with
        | zero =>
          exact Or.inl ((maskIdx_mem w0 base n).2.mpr ⟨i, by omega, by simpa using hb⟩)
        | succ w3 =>
          have hw2 : w3 < rest.length := by
            simp only [List.length_cons] at hw
            omega
          refine Or.inr ((ihr (base + 15) n).2.mpr ⟨w3, i, hw2, by omega, ?_⟩)
          simpa using hb

/-- C5: decoding a bitmask word list reads each 32-bit word in bit pairs from
least to most significant; for the word at list position `w` and pair index
`i`, the low bit of the pair selects effect index `15*w + i` into the
haplotype-1 list and the high bit selects `15*w + i` into the haplotype-2
list. -/
theorem claim_C5_bitmask_pairs (ws : List Nat) (n : Nat) :
    (n ∈ (parse_concat_values ws).1 ↔
      ∃ w i, w < ws.length ∧ n = 15 * w + i ∧ (ws.getD w 0).testBit (2 * i)) ∧
    (n ∈ (parse_concat_values ws).2 ↔
      ∃ w i, w < ws.length ∧ n = 15 * w + i ∧ (ws.getD w 0).testBit (2 * i + 1)) := by
  have h := concatLoop_mem ws 0 n
  unfold parse_concat_values
  constructor
  · rw [h.1]
    constructor <;>
      · rintro ⟨w, i, hw, hni, hb⟩
        exact ⟨w, i, hw, by omega, hb⟩
  · rw [h.2]
    constructor <;>
      · rintro ⟨w, i, hw, hni, hb⟩
        exact ⟨w, i, hw, by omega, hb⟩

/-- Splitting never yields an empty piece list. -/
theorem splitOnChar_ne_nil (c : Char) (l : List Char) : splitOnChar c l ≠ [] := by
  cases l with
  | nil => simp [splitOnChar]
  | cons x xs =>
    rw [splitOnChar]
    cases splitOnChar c xs with
    | nil => simp
    | cons h t =>
      by_cases hx : x = c
      · simp [hx]
      · simp [hx]

/-- A separator-free list splits to the singleton piece list. -/
theorem splitOnChar_of_count_zero (c : Char) :
    ∀ l : List Char, l.count c = 0 → splitOnChar c l = [l] := by
  intro l
  induction l with
  | nil => intro _; rfl
  | cons x xs ih =>
    intro h
    have hx : ¬x = c := by
      intro hxc
      subst hxc
      simp [List.count_cons] at h
    have hxs : xs.count c = 0 := by
      rw [List.count_cons] at h
      omega
    rw [splitOnChar, ih hxs]
    simp [hx]

/-- Every character of a split piece comes from the original list. -/
theorem mem_of_mem_splitOnChar (c x : Char) :
    ∀ (l : List Char) (e : List Char), e ∈ splitOnChar c l → x ∈ e → x ∈ l := by
  intro l
  induction l with
  | nil =>
    intro e he hx
    rw [show splitOnChar c [] = [[]] from rfl] at he
    rw [show e = [] by simpa using he] at hx
    cases hx
  | cons x0 xs ih =>
    intro e he hx
    rw [splitOnChar] at he
    cases hr : splitOnChar c xs with
    | nil => exact absurd hr (splitOnChar_ne_nil c xs)
    | cons h t =>
      rw [hr] at he
      dsimp only at he
      by_cases hx0 : x0 = c
      · rw [if_pos hx0] at he
        rcases List.mem_cons.mp he with he1 | he2
        · rw [he1] at hx
          cases hx
        · have : x ∈ xs := ih e (by rw [hr]; exact he2) hx
          exact List.mem_cons_of_mem x0 this
      · rw [if_neg hx0] at he
        rcases List.mem_cons.mp he with he1 | he2
        · rw [he1] at hx
          rcases List.mem_cons.mp hx with hxx | hxh
          · exact List.mem_cons.mpr (Or.inl hxx)
          · have : x ∈ xs := ih h (by rw [hr]; exact List.mem_cons_self h t) hxh
            exact List.mem_cons_of_mem x0 this
        · have : x ∈ xs := ih e (by rw [hr]; exact List.mem_cons_of_mem h he2) hx
          exact List.mem_cons_of_mem x0 this

/-- A field that `i32`-parses to a negative value carries a `-` sign. -/
theorem parseI32_neg_mem (e : List Char) (z : Int) (hp : parseI32 e = some z) (hz : z < 0) :
    '-' ∈ e := by
  unfold parseI32 at hp
  split at hp
  · simp
  · exfalso
    rcases Option.bind_eq_some.mp hp with ⟨n, _, hv⟩
    split at hv
    · have := Option.some.inj hv
      omega
    · cases hv
  · exfalso
    rcases Option.bind_eq_some.mp hp with ⟨n, _, hv⟩
    split at hv
    · have := Option.some.inj hv
      omega
    · cases hv

/-- C9: a per-sample column whose bitmask field (the last colon-separated
field) contains a negative `i32` entry makes `get_bit_mask` abort with the
"outdated csq" panic, so no mutation is ever routed from such a field. -/
theorem claim_C9_negative_bitmask (s : List Char) (h1 : s.count ':' ≠ 0)
    (h2 : ∃ e ∈ splitOnChar ',' ((splitOnChar ':' s).getD (s.count ':') []),
      ∃ z, parseI32 e = some z ∧ z < 0) :
    get_bit_mask s = Res.panicked := by
  obtain ⟨e, he, z, hp, hz⟩ := h2
  have hdash_e : '-' ∈ e := parseI32_neg_mem e z hp hz
  unfold get_bit_mask
  rw [if_neg h1]
  dsimp only
  generalize hF : (splitOnChar ':' s).getD (s.count ':') [] = field at he ⊢
  have hdash : '-' ∈ field := mem_of_mem_splitOnChar ',' '-' field e he hdash_e
  have hfd : field ≠ ['.'] := by
    intro hq
    rw [hq] at he
    rw [show splitOnChar ',' ['.'] = [['.']] from rfl] at he
    rw [show e = ['.'] by simpa using he] at hp
    rw [show parseI32 ['.'] = none from rfl] at hp
    cases hp
  rw [if_neg hfd]
  by_cases hcomma : field.count ',' = 0
  · rw [if_pos hcomma]
    have hsf : splitOnChar ',' field = [field] := splitOnChar_of_count_zero ',' field hcomma
    rw [hsf] at he
    have he2 : e = field := by simpa using he
    rw [he2] at hp
    unfold parse_fields
    rw [hp]
    dsimp only
    rw [if_pos hz]
  · rw [if_neg hcomma]
    have hrlz : remove_leading_zeros field = Res.panicked := by
      unfold remove_leading_zeros
      dsimp only
      have hstrip :
          ((splitOnChar ',' field).reverse.dropWhile
            (fun e2 => e2 == (['0'] : List Char))).reverse ≠ [] := by
        intro hnil
        have hdw : (splitOnChar ',' field).reverse.dropWhile
            (fun e2 => e2 == (['0'] : List Char)) = [] := by
          rw [← List.reverse_reverse ((splitOnChar ',' field).reverse.dropWhile _), hnil]
          rfl
        have hall := List.dropWhile_eq_nil_iff.mp hdw
        have he0 := hall e (List.mem_reverse.mpr he)
        have he1 : e = ['0'] := by simpa using he0
        rw [he1] at hdash_e
        simp at hdash_e
      rw [if_neg hstrip]
      rw [if_pos (by simpa [List.contains] using hdash)]
    show (remove_leading_zeros field >>= _) = Res.panicked
    rw [hrlz]
    rfl

/-- C9 witness: the sample column `0|1:-1` (bitmask field `-1`) panics. -/
theorem claim_C9_witness : get_bit_mask ("0|1:-1".toList) = Res.panicked :=
  claim_C9_negative_bitmask _ (by decide)
    ⟨['-', '1'], by decide, -1, by decide, by decide⟩

theorem Res.bind_ok {α β : Type} (a : α) (f : α → Res β) : (Res.ok a >>= f) = f a := rfl

theorem Res.bind_err {α β : Type} (f : α → Res β) : ((Res.err : Res α) >>= f) = Res.err := rfl

theorem Res.bind_panicked {α β : Type} (f : α → Res β) :
    ((Res.panicked : Res α) >>= f) = Res.panicked := rfl

/-- The `validate_s_state` loop returns true exactly when no element of the
scanned prefix is disqualifying. -/
theorem validateLoop_eq (l : List Mutation) : validateLoop l = !(l.any isBadPrior) := by
  induction l with
  | nil => rfl
  | cons m rest ih =>
    rw [validateLoop, List.any_cons]
    by_cases h1 : m.mut_type = MutationType.StopGained ∨ m.mut_type = MutationType.FrameShift ∨
        m.mut_type = MutationType.SStopGained
    · rw [if_pos h1]
      have hb : isBadPrior m = true := by
        unfold isBadPrior
        rcases h1 with h | h | h <;> simp [h]
      rw [hb]
      rfl
    · rw [if_neg h1]
      by_cases h2 : (m.mut_type = MutationType.InframeInsertion ∨
          m.mut_type = MutationType.InframeDeletion) ∧ m.mut_info.mut_aa = MutatedString.NotSeq
      · rw [if_pos h2]
        have hb : isBadPrior m = true := by
          unfold isBadPrior
          rcases h2 with ⟨h | h, hn⟩ <;> simp [h, hn]
        rw [hb]
        rfl
      · rw [if_neg h2]
        have hb : isBadPrior m = false := by
          by_contra hbb
          have hb2 : isBadPrior m = true := by
            revert hbb
            cases isBadPrior m <;> simp
          unfold isBadPrior at hb2
          simp only [Bool.or_eq_true, Bool.and_eq_true, beq_iff_eq] at hb2
          rcases hb2 with (h | h) | ⟨h | h, hn⟩
          · rcases h with h | h
            · exact h1 (Or.inl h)
            · exact h1 (Or.inr (Or.inl h))
          · exact h1 (Or.inr (Or.inr h))
          · exact h2 ⟨Or.inl h, hn⟩
          · exact h2 ⟨Or.inr h, hn⟩
        rw [hb, ih]
        simp

/-- `validate_s_state` is the negation of the earlier-disqualifier scan. -/
theorem validate_s_state_eq (m : Mutation) (l : List Mutation) :
    validate_s_state m l = !(earlierBad m l) := by
  unfold validate_s_state earlierBad
  exact validateLoop_eq _

/-- The lowered opcode of every asterisk kind is never `'E'` for an
unsuppressed mutation. -/
theorem expectedStarCode_ne_phi (m : Mutation) (hs : isStarredKind m.mut_type = true) :
    expectedStarCode m ≠ 'E' := by
  unfold expectedStarCode
  cases ht : m.mut_type <;> rw [ht] at hs <;> simp only [isStarredKind] at hs <;>
    dsimp only <;>
    first
      | exact absurd hs (by decide)
      | decide
      | (split <;> decide)

/-- C4 (amended): for an asterisk-form mutation in the per-transcript list, the
lowering emits the phi opcode `'E'` iff some earlier mutation (before its
first position-equal occurrence) is stop_gained, *stop_gained, frameshift, or
an inframe insertion/deletion whose mutant side is `NotSeq`; otherwise any
emitted opcode is the mutation's non-phi starred opcode, except that a
`*frameshift` with a `NotSeq` mutant side lowers to the plain stop_gained
opcode `'G'` (ill-formed `*missense`/`*inframe_deletion` sides panic and emit
nothing). -/
theorem claim_C4_asterisk_suppression (m : Mutation) (l : List Mutation)
    (hs : isStarredKind m.mut_type = true) :
    (resCode (Instruction.from_mutation m l) = some 'E' ↔ earlierBad m l = true) ∧
    (∀ c, resCode (Instruction.from_mutation m l) = some c → earlierBad m l = false →
      c = expectedStarCode m) := by
  have hval := validate_s_state_eq m l
  by_cases hE : earlierBad m l = true
  · have hv2 : validate_s_state m l = false := by
      rw [hval, hE]
      rfl
    have hphi : Instruction.from_mutation m l = Res.ok generate_phi_instruction := by
      cases ht : m.mut_type <;> rw [ht] at hs <;> simp only [isStarredKind] at hs <;>
        try (exact absurd hs (by decide))
      · simp [Instruction.from_mutation, ht, interpret_s_missense, hv2]
      · simp [Instruction.from_mutation, ht, interpret_s_inframe_insertion, hv2]
      · simp [Instruction.from_mutation, ht, interpret_s_inframe_deletion, hv2]
      · simp [Instruction.from_mutation, ht, interpret_s_frameshift, hv2]
      · simp [Instruction.from_mutation, ht, interpret_s_missense_and_inframe_altering,
          interpret_s_frameshift, hv2, Res.bind_ok, generate_phi_instruction]
      · simp [Instruction.from_mutation, ht, interpret_s_frameshift_and_stop_retained,
          interpret_s_frameshift, hv2, Res.bind_ok, generate_phi_instruction]
        cases hma : m.mut_info.mut_aa <;> simp [hma, hv2]
      · simp [Instruction.from_mutation, ht, interpret_s_stop_gained_and_inframe_altering,
          interpret_s_stop_gained, hv2, Res.bind_ok, generate_phi_instruction]
      · simp [Instruction.from_mutation, ht, interpret_s_stop_gained, hv2]
    refine ⟨⟨fun _ => hE, fun _ => ?_⟩, fun c hc hF => ?_⟩
    · rw [hphi]
      rfl
    · rw [hE] at hF
      cases hF
  · have hE2 : earlierBad m l = false := by
      revert hE
      cases earlierBad m l <;> simp
    have hv2 : validate_s_state m l = true := by
      rw [hval, hE2]
      rfl
    have hmain : ∀ c, resCode (Instruction.from_mutation m l) = some c →
        c = expectedStarCode m := by
      intro c hc
      cases ht : m.mut_type <;> rw [ht] at hs <;> simp only [isStarredKind] at hs <;>
        try (exact absurd hs (by decide))
      · -- SMisSense
        cases hma : m.mut_info.mut_aa <;>
          simp [Instruction.from_mutation, ht, interpret_s_missense, interpret_missense,
            seqData, hma, hv2, Res.bind_ok, Res.bind_panicked, resCode,
            expectedStarCode] at hc ⊢ <;>
          exact hc.symm
      · -- SInframeInsertion
        cases hma : m.mut_info.mut_aa <;>
          simp [Instruction.from_mutation, ht, interpret_s_inframe_insertion,
            interpret_inframe_insertion, interpret_stop_gained, seqData, hma, hv2,
            Res.bind_ok, resCode, expectedStarCode] at hc ⊢ <;>
          exact hc.symm
      · -- SInframeDeletion
        have hdel : resCode (Instruction.from_mutation m l) = some 'C' ∨
            resCode (Instruction.from_mutation m l) = none := by
          simp only [Instruction.from_mutation, ht]
          unfold interpret_s_inframe_deletion
          rw [hv2]
          dsimp only
          unfold interpret_inframe_deletion interpret_stop_gained
          cases hra : m.mut_info.ref_aa <;> cases hma : m.mut_info.mut_aa <;>
            dsimp only [seqData] <;>
            (try (unfold csub; split)) <;>
            simp [Res.bind_ok, Res.bind_panicked, resCode]
        rcases hdel with hdel | hdel
        · have hcc : c = 'C' := Option.some.inj (hc.symm.trans hdel)
          rw [hcc]
          simp [expectedStarCode, ht]
        · rw [hc] at hdel
          cases hdel
      · -- SFrameShift
        cases hma : m.mut_info.mut_aa <;>
          simp [Instruction.from_mutation, ht, interpret_s_frameshift, interpret_frameshift,
            interpret_stop_gained, seqData, hma, hv2, Res.bind_ok, resCode,
            expectedStarCode] at hc ⊢ <;>
          exact hc.symm
      · -- SMisSenseAndInframeAltering
        cases hma : m.mut_info.mut_aa <;>
          simp [Instruction.from_mutation, ht, interpret_s_missense_and_inframe_altering,
            interpret_s_frameshift, interpret_frameshift, interpret_stop_gained, seqData,
            hma, hv2, Res.bind_ok, resCode, expectedStarCode] at hc ⊢ <;>
          exact hc.symm
      · -- SFrameShiftAndStopRetained
        cases hma : m.mut_info.mut_aa <;>
          simp [Instruction.from_mutation, ht, interpret_s_frameshift_and_stop_retained,
            interpret_s_frameshift, interpret_frameshift, interpret_stop_gained, seqData,
            hma, hv2, Res.bind_ok, resCode, expectedStarCode] at hc ⊢ <;>
          exact hc.symm
      · -- SStopGainedAndInframeAltering
        simp [Instruction.from_mutation, ht, interpret_s_stop_gained_and_inframe_altering,
          interpret_s_stop_gained, interpret_stop_gained, hv2, Res.bind_ok, resCode,
          expectedStarCode] at hc ⊢ <;>
          exact hc.symm
      · -- SStopGained
        simp [Instruction.from_mutation, ht, interpret_s_stop_gained, interpret_stop_gained,
          hv2, Res.bind_ok, resCode, expectedStarCode] at hc ⊢ <;>
          exact hc.symm
    have hne := expectedStarCode_ne_phi m hs
    refine ⟨⟨fun hc => absurd (hmain 'E' hc).symm hne, fun hEE => ?_⟩, fun c hc _ => hmain c hc⟩
    rw [hE2] at hEE
    cases hEE

/-- C4 counterexample: a lone `*frameshift 10V>10*` (mutant side `NotSeq`, no
earlier mutation) lowers to the plain stop_gained opcode `'G'` — non-phi, but
NOT its starred opcode `'R'` — refuting the claim's "otherwise it lowers to
its non-phi starred opcode". -/
theorem claim_C4_counterexample :
    Instruction.from_mutation
        (⟨['E'], MutationType.SFrameShift,
          ⟨9, 9, MutatedString.Sequence ['V'], MutatedString.NotSeq⟩⟩ : Mutation)
        [⟨['E'], MutationType.SFrameShift,
          ⟨9, 9, MutatedString.Sequence ['V'], MutatedString.NotSeq⟩⟩]
      = Res.ok ⟨'G', false, 9, 9, 0, []⟩ ∧
    earlierBad
        (⟨['E'], MutationType.SFrameShift,
          ⟨9, 9, MutatedString.Sequence ['V'], MutatedString.NotSeq⟩⟩ : Mutation)
        [⟨['E'], MutationType.SFrameShift,
          ⟨9, 9, MutatedString.Sequence ['V'], MutatedString.NotSeq⟩⟩] = false ∧
    ('G' : Char) ≠ 'R' ∧ ('G' : Char) ≠ 'E' := by
  decide

/-- C4 witness: a `*missense` preceded by a stop_gained is suppressed to phi. -/
theorem claim_C4_witness :
    resCode (Instruction.from_mutation
        (⟨['E'], MutationType.SMisSense,
          ⟨5, 5, MutatedString.Sequence ['Q'], MutatedString.Sequence ['R']⟩⟩ : Mutation)
        [⟨['E'], MutationType.StopGained,
          ⟨2, 2, MutatedString.Sequence ['K'], MutatedString.NotSeq⟩⟩,
         ⟨['E'], MutationType.SMisSense,
          ⟨5, 5, MutatedString.Sequence ['Q'], MutatedString.Sequence ['R']⟩⟩])
      = some 'E' :=
  (claim_C4_asterisk_suppression _ _ (by decide)).1.mpr (by decide)

/-- Inversion for the `Res` monad: a successful bind factors through a
successful first component. -/
theorem Res.bind_eq_ok {α β : Type} {x : Res α} {f : α → Res β} {b : β}
    (h : (x >>= f) = Res.ok b) : ∃ a, x = Res.ok a ∧ f a = Res.ok b := by
  cases x with
  | ok a => exact ⟨a, rfl, h⟩
  | err => cases h
  | panicked => cases h

/-- The base task always copies from the reference stream (code 0). -/
theorem build_base_code (ins : Instruction) (ref_len : Nat) :
    (build_base_instruction ins ref_len).exe_code = 0 := by
  unfold build_base_instruction
  split <;>
    first
      | rfl
      | (split <;>
          first
            | rfl
            | (split <;> rfl))

/-- The terminal reference copy has stream code 0. -/
theorem add_last_code (ref_seq : Nat) (ins : Instruction) (p : Nat) (t : Task)
    (h : add_last_instruction ref_seq ins p = Res.ok t) : t.exe_code = 0 := by
  unfold add_last_instruction at h
  split at h <;>
    (unfold csub at h
     split at h <;> simp only [Res.bind_ok, Res.bind_panicked] at h) <;>
    first
      | (injection h with h2
         subst h2
         rfl)
      | cases h

/-- A bridge task is either a reference copy (code 0) or phi (code 2). -/
theorem add_till_code (ins : Instruction) (instructions : List Instruction) (last_task : Task)
    (ref_len : Nat) (t : Task) (h : add_till_next_ins ins instructions last_task ref_len = Res.ok t) :
    t.exe_code = 0 ∨ t.exe_code = 2 := by
  unfold add_till_next_ins at h
  split at h <;>
    (dsimp only at h
     split_ifs at h <;>
       (try (unfold csub at h
             split at h <;> simp only [Res.bind_ok, Res.bind_panicked] at h)) <;>
       first
         | (injection h with h2
            subst h2
            first
              | (left; rfl)
              | (right; rfl))
         | cases h)

/-- `to_task` emits an edit task from the alternative stream or phi, and a
bridge/terminal task from the reference stream or phi. -/
theorem to_task_codes (ins : Instruction) (all : List Instruction) (alt : List Char)
    (tasks : List Task) (L : Nat) (t1 t2 : Task) (a2 : List Char)
    (h : to_task ins all alt tasks L = Res.ok (t1, t2, a2)) :
    (t1.exe_code = 1 ∨ t1.exe_code = 2) ∧ (t2.exe_code = 0 ∨ t2.exe_code = 2) := by
  unfold to_task at h
  simp only [get_task_from_missense, get_task_from_frameshift, get_task_from_stop_gained,
    get_task_from_s_stop_gained, get_task_from_stop_lost, get_task_from_inframe_insertion,
    get_task_from_inframe_deletion, get_task_from_instruction_2, get_task_from_instruction_3,
    Res.bind_ok] at h
  repeat' split at h
  all_goals
    first
      | (cases h <;>
          exact ⟨by first | (left; rfl) | (right; rfl),
            by first | (left; rfl) | (right; rfl)⟩)
      | (obtain ⟨v, hv, h⟩ := Res.bind_eq_ok h
         simp only [Res.ok.injEq, Prod.mk.injEq] at h
         obtain ⟨ht1, ht2, _⟩ := h
         subst ht1
         subst ht2
         refine ⟨by first | (left; rfl) | (right; rfl), ?_⟩
         first
           | exact Or.inl (add_last_code _ _ _ _ hv)
           | exact add_till_code _ _ _ _ _ hv)

/-- Pushing a task filtered on `stream ≠ 2` preserves the 0-or-1 invariant. -/
theorem push_filtered_codes (ts0 : List Task) (tk : Task)
    (hts0 : ∀ u ∈ ts0, u.exe_code = 0 ∨ u.exe_code = 1)
    (hk : tk.exe_code = 0 ∨ tk.exe_code = 1 ∨ tk.exe_code = 2) :
    ∀ u ∈ (if (tk.exe_code == 2) then ts0 else ts0 ++ [tk]),
      u.exe_code = 0 ∨ u.exe_code = 1 := by
  intro u hu
  by_cases h2 : tk.exe_code = 2
  · rw [if_pos (by simp [h2])] at hu
    exact hts0 u hu
  · rw [if_neg (by simp [h2])] at hu
    rcases List.mem_append.mp hu with hu | hu
    · exact hts0 u hu
    · have hu2 : u = tk := by simpa using hu
      subst hu2
      rcases hk with h1 | h1 | h1
      · exact Or.inl h1
      · exact Or.inr h1
      · exact absurd h1 h2

/-- The task-emission loop only ever pushes tasks with stream code 0 or 1. -/
theorem girLoop_codes (all : List Instruction) (L : Nat) (l : List Instruction) :
    ∀ (alt : List Char) (acc : List Task),
      (∀ t ∈ acc, t.exe_code = 0 ∨ t.exe_code = 1) →
      ∀ a2 ts, girLoop all L l alt acc = Res.ok (a2, ts) →
      ∀ t ∈ ts, t.exe_code = 0 ∨ t.exe_code = 1 := by
  induction l with
  | nil =>
    intro alt acc hacc a2 ts h t ht
    simp only [girLoop, Res.ok.injEq, Prod.mk.injEq] at h
    obtain ⟨_, hts⟩ := h
    subst hts
    exact hacc t ht
  | cons ins rest ih =>
    intro alt acc hacc a2 ts h t ht
    simp only [girLoop] at h
    obtain ⟨⟨tt1, tt2, aa⟩, hto, h⟩ := Res.bind_eq_ok h
    dsimp only at h
    have hcodes := to_task_codes ins all alt acc L tt1 tt2 aa hto
    have hacc1 : ∀ u ∈ (if (tt1.exe_code == 2) then acc else acc ++ [tt1]),
        u.exe_code = 0 ∨ u.exe_code = 1 := by
      refine push_filtered_codes acc tt1 hacc ?_
      rcases hcodes.1 with h1 | h1
      · exact Or.inr (Or.inl h1)
      · exact Or.inr (Or.inr h1)
    have hacc2 : ∀ u ∈ (if (tt2.exe_code == 2)
          then (if (tt1.exe_code == 2) then acc else acc ++ [tt1])
          else (if (tt1.exe_code == 2) then acc else acc ++ [tt1]) ++ [tt2]),
        u.exe_code = 0 ∨ u.exe_code = 1 := by
      refine push_filtered_codes _ tt2 hacc1 ?_
      rcases hcodes.2 with h1 | h1
      · exact Or.inl h1
      · exact Or.inr (Or.inr h1)
    exact ih aa _ hacc2 a2 ts h t ht

/-- Every task in a successfully compiled transcript fragment has stream code
0 or 1. -/
theorem get_g_rep_codes (ti : TranscriptInstruction) (refs : List (List Char × List Char))
    (g : GIR) (h : get_g_rep ti refs = Res.ok g) :
    ∀ t ∈ g.g_rep, t.exe_code = 0 ∨ t.exe_code = 1 := by
  unfold get_g_rep at h
  split at h
  · simp only [Res.ok.injEq] at h
    subst h
    intro t ht
    cases ht
  · split at h
    · cases h
    · obtain ⟨size, _, h⟩ := Res.bind_eq_ok h
      dsimp only at h
      split at h
      · cases h
      · obtain ⟨⟨aa, ts⟩, hloop, h⟩ := Res.bind_eq_ok h
        dsimp only at h
        simp only [Res.ok.injEq] at h
        subst h
        intro t ht
        refine girLoop_codes _ _ _ _ _ ?_ _ _ hloop t ht
        intro u hu
        rw [List.mem_singleton] at hu
        subst hu
        exact Or.inl (build_base_code _ _)

/-- Re-indexing a task with stream code 0 or 1 succeeds and preserves its
stream code (the panic branch of `update_task` is not taken). -/
theorem update_task_ok (t : Task) (rc ac sc : Nat) (h : t.exe_code = 0 ∨ t.exe_code = 1) :
    ∃ t2, update_task t rc ac sc = Res.ok t2 ∧ t2.exe_code = t.exe_code := by
  rcases h with h | h
  · exact ⟨⟨0, t.start_pos + rc, t.length, t.start_pos_res + sc⟩,
      by simp [update_task, h], by simp [h]⟩
  · exact ⟨⟨1, t.start_pos + ac, t.length, t.start_pos_res + sc⟩,
      by simp [update_task, h], by simp [h]⟩

/-- Re-indexing a whole fragment's tasks succeeds and preserves the 0-or-1
invariant. -/
theorem updateTasks_ok (rc ac sc : Nat) :
    ∀ ts : List Task, (∀ t ∈ ts, t.exe_code = 0 ∨ t.exe_code = 1) →
      ∃ ts2, updateTasks rc ac sc ts = Res.ok ts2 ∧
        ∀ t ∈ ts2, t.exe_code = 0 ∨ t.exe_code = 1 := by
  intro ts
  induction ts with
  | nil => intro _; exact ⟨[], rfl, by intro t ht; cases ht⟩
  | cons t rest ih =>
    intro hts
    obtain ⟨t2, ht2, hcode⟩ := update_task_ok t rc ac sc (hts t (List.mem_cons_self t rest))
    obtain ⟨rest2, hrest2, hcodes⟩ := ih (fun u hu => hts u (List.mem_cons_of_mem t hu))
    refine ⟨t2 :: rest2, ?_, ?_⟩
    · simp only [updateTasks, ht2, hrest2, Res.bind_ok]
    · intro u hu
      rcases List.mem_cons.mp hu with hu | hu
      · subst hu
        rw [hcode]
        exact hts t (List.mem_cons_self t rest)
      · exact hcodes u hu

/-- The assembler loop never reaches `update_task`'s panic branch on such
fragments, and the assembled task vector keeps stream codes 0 or 1. -/
theorem hapLoop_ok (frags : List (Res GIR)) :
    ∀ (acc : List Task) (alt refA : List Char) (ann : List (List Char × (Nat × Nat)))
      (rc ac sc : Nat),
      (∀ t ∈ acc, t.exe_code = 0 ∨ t.exe_code = 1) →
      (∀ fr ∈ frags, fragOkCodes fr = true) →
      ∃ out, hapLoop frags acc alt refA ann rc ac sc = Res.ok out ∧
        ∀ t ∈ out.1, t.exe_code = 0 ∨ t.exe_code = 1 := by
  induction frags with
  | nil =>
    intro acc alt refA ann rc ac sc hacc _
    exact ⟨(acc, alt, refA, ann), rfl, hacc⟩
  | cons fr rest ih =>
    intro acc alt refA ann rc ac sc hacc hfr
    have hfr0 := hfr fr (List.mem_cons_self fr rest)
    have hfrrest : ∀ f ∈ rest, fragOkCodes f = true :=
      fun f hf => hfr f (List.mem_cons_of_mem fr hf)
    cases fr with
    | err =>
      obtain ⟨out, hout, hcodes⟩ := ih acc alt refA ann rc ac sc hacc hfrrest
      exact ⟨out, hout, hcodes⟩
    | panicked => cases hfr0
    | ok r =>
      have hr : ∀ t ∈ r.g_rep, t.exe_code = 0 ∨ t.exe_code = 1 := by
        intro t ht
        have h2 := List.all_eq_true.mp hfr0 t ht
        simpa using h2
      obtain ⟨ts2, hts2, hcodes2⟩ := updateTasks_ok rc ac sc r.g_rep hr
      have hacc2 : ∀ t ∈ acc ++ ts2, t.exe_code = 0 ∨ t.exe_code = 1 := by
        intro t ht
        rcases List.mem_append.mp ht with ht | ht
        · exact hacc t ht
        · exact hcodes2 t ht
      obtain ⟨out, hout, hcodes⟩ :=
        ih (acc ++ ts2) (alt ++ r.alt_stream) (refA ++ r.ref_stream)
          (ann ++ r.annot.map (fun e => (e.1, (e.2.1 + sc, e.2.2 + sc))))
          (rc + r.ref_stream.length) (ac + r.alt_stream.length) (sc + r.res_array.length)
          hacc2 hfrrest
      refine ⟨out, ?_, hcodes⟩
      simp only [hapLoop, hts2, Res.bind_ok]
      exact hout

/-- C10: every task of a GIR returned by the transcript compiler has stream
code 0 or 1 (phi tasks are filtered before being pushed), and on such
fragments the haplotype assembler succeeds — its panic branch for unsupported
stream codes is never taken — with the assembled task vector again all 0 or
1, so the executor never processes a phi task. -/
theorem claim_C10_stream_codes :
    (∀ (ti : TranscriptInstruction) (refs : List (List Char × List Char)) (g : GIR),
      get_g_rep ti refs = Res.ok g → ∀ t ∈ g.g_rep, t.exe_code = 0 ∨ t.exe_code = 1) ∧
    (∀ (frags : List (Res GIR)) (buf : List Char),
      (∀ fr ∈ frags, fragOkCodes fr = true) →
      ∃ g, hap_get_g_rep frags buf = Res.ok g ∧
        ∀ t ∈ g.g_rep, t.exe_code = 0 ∨ t.exe_code = 1) := by
  constructor
  · exact get_g_rep_codes
  · intro frags buf hfr
    obtain ⟨out, hout, hcodes⟩ :=
      hapLoop_ok frags [] [] [] [] 0 0 0 (by intro t ht; cases ht) hfr
    refine ⟨⟨out.1, out.2.2.2, out.2.1, out.2.2.1, buf⟩, ?_, hcodes⟩
    unfold hap_get_g_rep
    rw [hout]
    rfl

/-- C10 witness: the compiled C1 fragment's tasks are all stream 0 or 1, and
assembling it succeeds with the invariant intact. -/
theorem claim_C10_witness :
    (∀ t ∈ c1Gir.g_rep, t.exe_code = 0 ∨ t.exe_code = 1) ∧
    (∃ g, hap_get_g_rep [Res.ok c1Gir] (List.replicate 19 '.') = Res.ok g ∧
      ∀ t ∈ g.g_rep, t.exe_code = 0 ∨ t.exe_code = 1) :=
  ⟨claim_C10_stream_codes.1 c1Ti c1Refs c1Gir (by decide),
    claim_C10_stream_codes.2 [Res.ok c1Gir] (List.replicate 19 '.') (by decide)⟩

theorem writeSlice_length (src : List Char) :
    ∀ (l : Nat) (results : List Char) (s sr : Nat),
      (writeSlice results src s l sr).length = results.length := by
  intro l
  induction l with
  | zero => intro results s sr; rfl
  | succ l2 ih =>
    intro results s sr
    rw [writeSlice, ih, List.length_set]

/-- A slice write does not touch positions outside `[sr, sr + l)`. -/
theorem writeSlice_getElem?_out (src : List Char) :
    ∀ (l : Nat) (results : List Char) (s sr j : Nat), (j < sr ∨ sr + l ≤ j) →
      (writeSlice results src s l sr)[j]? = results[j]? := by
  intro l
  induction l with
  | zero => intro results s sr j _; rfl
  | succ l2 ih =>
    intro results s sr j hj
    rw [writeSlice, ih]
    · exact List.getElem?_set_ne (by omega)
    · omega

/-- Inside `[sr, sr + l)` a slice write places the source byte (as read with
`getD`, matching the device gather). -/
theorem writeSlice_getElem?_in (src : List Char) :
    ∀ (l : Nat) (results : List Char) (s sr j : Nat), sr ≤ j → j < sr + l →
      sr + l ≤ results.length →
      (writeSlice results src s l sr)[j]? = some (src.getD (s + (j - sr)) ' ') := by
  intro l
  induction l with
  | zero => intro results s sr j h1 h2 _; omega
  | succ l2 ih =>
    intro results s sr j h1 h2 hlen
    rw [writeSlice]
    by_cases hj : j = sr
    · subst hj
      rw [writeSlice_getElem?_out src l2 _ _ _ _ (Or.inl (by omega))]
      rw [List.getElem?_set_eq_of_lt _ (by omega)]
      simp
    · rw [ih _ _ _ _ (by omega) (by omega) (by rw [List.length_set]; omega)]
      congr 2
      omega

/-- Gathering over no tasks is the identity. -/
theorem gatherTasks_nil (ref_tape alt_tape results : List Char) :
    gatherTasks ref_tape alt_tape [] results = results := by
  unfold gatherTasks
  refine List.ext_getElem (by simp) ?_
  intro n h1 h2
  rw [List.getElem_map, List.getElem_range]
  simp only [List.find?]
  rw [List.getD_eq_getElem]

/-- The sequential CPU task loop computes exactly the per-position gather when
tasks stay in bounds and have pairwise disjoint result ranges. -/
theorem execTasks_eq_gather (ref_tape alt_tape : List Char) :
    ∀ (tasks : List Task) (results : List Char),
      (∀ t ∈ tasks, taskInBounds ref_tape alt_tape results t) →
      List.Pairwise resDisjoint tasks →
      execTasks ref_tape alt_tape tasks results =
        Res.ok (gatherTasks ref_tape alt_tape tasks results) := by
  intro tasks
  induction tasks with
  | nil =>
    intro results _ _
    rw [gatherTasks_nil]
    rfl
  | cons t rest ih =>
    intro results hb hd
    have hbt := hb t (List.mem_cons_self t rest)
    have hwrite : Task.execute t results ref_tape alt_tape =
        Res.ok (writeSlice results (if t.exe_code = 0 then ref_tape else alt_tape)
          t.start_pos t.length t.start_pos_res) := by
      unfold Task.execute
      rw [if_pos ⟨hbt.1, hbt.2⟩]
    have hlen1 : (writeSlice results (if t.exe_code = 0 then ref_tape else alt_tape)
        t.start_pos t.length t.start_pos_res).length = results.length :=
      writeSlice_length _ _ _ _ _
    have hrec := ih (writeSlice results (if t.exe_code = 0 then ref_tape else alt_tape)
        t.start_pos t.length t.start_pos_res)
      (by
        intro u hu
        have := hb u (List.mem_cons_of_mem t hu)
        exact ⟨by rw [hlen1]; exact this.1, this.2⟩)
      (List.Pairwise.sublist (List.sublist_cons_self t rest) hd)
    have hgather : gatherTasks ref_tape alt_tape rest
        (writeSlice results (if t.exe_code = 0 then ref_tape else alt_tape)
          t.start_pos t.length t.start_pos_res)
        = gatherTasks ref_tape alt_tape (t :: rest) results := by
      unfold gatherTasks
      refine List.ext_getElem (by simp [hlen1]) ?_
      intro n h1 h2
      rw [List.getElem_map, List.getElem_map, List.getElem_range, List.getElem_range]
      have hn : n < results.length := by simpa using h2
      rw [List.find?_cons]
      by_cases hcov : taskCovers t n = true
      · rw [hcov]
        have hnone : rest.find? (fun u => taskCovers u n) = none := by
          rw [List.find?_eq_none]
          intro u hu hcu
          have hdis := (List.pairwise_cons.mp hd).1 u hu
          unfold taskCovers at hcov hcu
          simp only [decide_eq_true_eq] at hcov hcu
          unfold resDisjoint at hdis
          omega
        rw [hnone]
        unfold taskCovers at hcov
        simp only [decide_eq_true_eq] at hcov
        rw [List.getD_eq_getElem?_getD,
          writeSlice_getElem?_in _ _ _ _ _ _ hcov.1 hcov.2 hbt.1]
        rfl
      · rw [Bool.of_not_eq_true hcov]
        cases hfind : rest.find? (fun u => taskCovers u n) with
        | some u => rfl
        | none =>
          rw [List.getD_eq_getElem?_getD, List.getD_eq_getElem?_getD,
            writeSlice_getElem?_out]
          unfold taskCovers at hcov
          simp only [decide_eq_true_eq] at hcov
          omega
    calc execTasks ref_tape alt_tape (t :: rest) results
        = execTasks ref_tape alt_tape rest
            (writeSlice results (if t.exe_code = 0 then ref_tape else alt_tape)
              t.start_pos t.length t.start_pos_res) := by
            show (Task.execute t results ref_tape alt_tape >>= _) = _
            rw [hwrite]
            rfl
      _ = Res.ok (gatherTasks ref_tape alt_tape (t :: rest) results) := by
          rw [hrec, hgather]

/-- C2: the single-threaded and multi-threaded CPU engines are the same match
arm in the source, and both produce the byte sequence and annotation map of
the (spec-modelled) one-thread-per-task device gather, for every GIR whose
tasks respect the spec's bounds (invariant 1) and result-range-disjointness
(invariant 2) contracts. -/
theorem claim_C2_backend_equivalence (g : GIR)
    (hb : ∀ t ∈ g.g_rep, taskInBounds g.ref_stream g.alt_stream g.res_array t)
    (hd : List.Pairwise resDisjoint g.g_rep) :
    g.execute Engine.ST = g.execute Engine.MT ∧
      g.execute Engine.ST = g.execute Engine.GPU := by
  constructor
  · rfl
  · show (execTasks g.ref_stream g.alt_stream g.g_rep g.res_array >>= _) = _
    rw [execTasks_eq_gather g.ref_stream g.alt_stream g.g_rep g.res_array hb hd]
    rfl

/-- C2 witness: a two-task GIR executed on all three engines. -/
theorem claim_C2_witness :
    GIR.execute ⟨[⟨0, 0, 2, 0⟩, ⟨1, 0, 1, 2⟩], [(['T'], (0, 3))], ['C'], ['A', 'B'],
        ['.', '.', '.']⟩ Engine.ST
      = GIR.execute ⟨[⟨0, 0, 2, 0⟩, ⟨1, 0, 1, 2⟩], [(['T'], (0, 3))], ['C'], ['A', 'B'],
        ['.', '.', '.']⟩ Engine.MT ∧
    GIR.execute ⟨[⟨0, 0, 2, 0⟩, ⟨1, 0, 1, 2⟩], [(['T'], (0, 3))], ['C'], ['A', 'B'],
        ['.', '.', '.']⟩ Engine.ST
      = GIR.execute ⟨[⟨0, 0, 2, 0⟩, ⟨1, 0, 1, 2⟩], [(['T'], (0, 3))], ['C'], ['A', 'B'],
        ['.', '.', '.']⟩ Engine.GPU :=
  claim_C2_backend_equivalence _ (by decide) (by decide)

end Vcf2Prot
